import Mathlib

/-!
# Task-list manager (`js/script.js`): embedding of the `TodoApp` class

The class keeps an array `todos`, a string `currentFilter` and writes the array,
serialised, to the `localStorage` item `'todos'`.  The embedding keeps these three
as an explicit state record; every method is a function from the state and the
values the browser hands to the method (form fields, clock readings, the local
UTC offset, the answer to a `confirm` box) to the new state and the dialog boxes
shown.  DOM updates (`render`, `resetForm`, `showSuccessMessage`) write neither
`todos`, `currentFilter` nor `localStorage` and are left out of the state.

Modelling boundaries, stated once:
* a task object is a record of its five properties; the arrays hold distinct
  objects, so a list of records stands for the array;
* a `Date` holds a time value in milliseconds since the epoch, or `NaN`
  (`none`); the local zone is a constant offset in minutes east of UTC, so a
  day on which the offset changes (daylight saving) is not modelled;
* `new Date(text)` is modelled for the texts the program gives it: the date-input
  value `YYYY-MM-DD` (read as UTC midnight, as ECMAScript prescribes for a
  date-only text) and the output of `toDateString` (read as local midnight of
  the day printed, a printed year below 0100 being taken for a year of the
  twentieth or twenty-first century); any other text is taken as an invalid
  date, though an engine may read some of them by rules of its own, and no
  general statement below rests on such a text;
* `localStorage.setItem` is taken to succeed;
* `loadTodos` returns the value `JSON.parse` builds, or raises; `todosOfJSON` reads
  such a value as a list of task records.
-/

set_option autoImplicit false

/-- One task object, with the properties `handleAddTodo` gives it. -/
structure Todo where
  id : Int
  task : String
  dueDate : String
  completed : Bool
  createdAt : String
deriving DecidableEq, Repr

/-- A modal box shown to the user: `alert(msg)` or `confirm(msg)`. -/
inductive Dialog where
  | alert (msg : String)
  | confirm (msg : String)
deriving DecidableEq, Repr

/-- The fields of the `TodoApp` object that the engine reads and writes, with the
`localStorage` item `'todos'` (`none`: the item does not exist). -/
structure TodoApp where
  todos : List Todo
  currentFilter : String
  localStorage : Option String
deriving DecidableEq, Repr

/-! ## Strings: `trim` and `JSON.stringify` -/

/-- ECMAScript `WhiteSpace` and `LineTerminator` code points, the ones
`String.prototype.trim` strips. -/
def isJsWhiteSpace (c : Char) : Bool :=
  let n := c.toNat
  n == 0x09 || n == 0x0A || n == 0x0B || n == 0x0C || n == 0x0D || n == 0x20 ||
  n == 0xA0 || n == 0x1680 || (0x2000 ≤ n && n ≤ 0x200A) || n == 0x2028 ||
  n == 0x2029 || n == 0x202F || n == 0x205F || n == 0x3000 || n == 0xFEFF

/-- Strip white space from both ends of a character sequence. -/
def trimChars (cs : List Char) : List Char :=
  ((cs.dropWhile isJsWhiteSpace).reverse.dropWhile isJsWhiteSpace).reverse

/-- Embedding of `String.prototype.trim`. -/
def trim (s : String) : String := ⟨trimChars s.data⟩

/-- Lower-case hexadecimal digit of a number below sixteen. -/
def hexDigit (n : Nat) : Char :=
  if n < 10 then Char.ofNat (48 + n) else Char.ofNat (87 + n)

/-- The characters `JSON.stringify` writes for one character of a string. -/
def quoteJSONChar (c : Char) : List Char :=
  let n := c.toNat
  if n == 0x22 then [Char.ofNat 0x5C, Char.ofNat 0x22]
  else if n == 0x5C then [Char.ofNat 0x5C, Char.ofNat 0x5C]
  else if n == 0x08 then [Char.ofNat 0x5C, 'b']
  else if n == 0x0C then [Char.ofNat 0x5C, 'f']
  else if n == 0x0A then [Char.ofNat 0x5C, 'n']
  else if n == 0x0D then [Char.ofNat 0x5C, 'r']
  else if n == 0x09 then [Char.ofNat 0x5C, 't']
  else if n < 0x20 then [Char.ofNat 0x5C, 'u', '0', '0', hexDigit (n / 16), hexDigit (n % 16)]
  else [c]

/-- Embedding of `JSON.stringify` on a string: the quoted, escaped text. -/
def quoteJSONString (s : String) : String :=
  ⟨Char.ofNat 0x22 :: (s.data.flatMap quoteJSONChar ++ [Char.ofNat 0x22])⟩

/-- Embedding of `JSON.stringify` on one task object: its five properties in
creation order. -/
def stringifyTodo (t : Todo) : String :=
  "\x7b\"id\":" ++ toString t.id ++
  ",\"task\":" ++ quoteJSONString t.task ++
  ",\"dueDate\":" ++ quoteJSONString t.dueDate ++
  ",\"completed\":" ++ (if t.completed then "true" else "false") ++
  ",\"createdAt\":" ++ quoteJSONString t.createdAt ++ "\x7d"

/-- Embedding of `JSON.stringify(this.todos)`. -/
def stringify (ts : List Todo) : String :=
  "[" ++ ",".intercalate (ts.map stringifyTodo) ++ "]"

/-! ## Dates -/

/-- Milliseconds in a day. -/
def msPerDay : Int := 86400000

/-- Gregorian leap-year rule. -/
def isLeapYear (y : Int) : Bool :=
  (y % 4 == 0 && y % 100 != 0) || y % 400 == 0

/-- Number of days of month `m` of year `y`. -/
def daysInMonth (y m : Int) : Int :=
  if m == 2 then (if isLeapYear y then 29 else 28)
  else if m == 4 || m == 6 || m == 9 || m == 11 then 30
  else 31

/-- Day number (days since 1970-01-01) of a Gregorian calendar date. -/
def daysFromCivil (y m d : Int) : Int :=
  let y1 := if m ≤ 2 then y - 1 else y
  let era := y1 / 400
  let yoe := y1 - era * 400
  let mp := if m > 2 then m - 3 else m + 9
  let doy := (153 * mp + 2) / 5 + d - 1
  let doe := yoe * 365 + yoe / 4 - yoe / 100 + doy
  era * 146097 + doe - 719468

/-- Value of a decimal digit. -/
def digitVal (c : Char) : Option Int :=
  if 48 ≤ c.toNat ∧ c.toNat ≤ 57 then some ((c.toNat : Int) - 48) else none

/-- Day number named by a text of the form `YYYY-MM-DD`; `none` when the text
has another form or names no calendar date. -/
def isoDay (s : String) : Option Int :=
  match s.data with
  | [y1, y2, y3, y4, s1, m1, m2, s2, d1, d2] =>
    if s1 = '-' ∧ s2 = '-' then do
      let a ← digitVal y1
      let b ← digitVal y2
      let c ← digitVal y3
      let e ← digitVal y4
      let f ← digitVal m1
      let g ← digitVal m2
      let h ← digitVal d1
      let i ← digitVal d2
      let y := 1000 * a + 100 * b + 10 * c + e
      let m := 10 * f + g
      let d := 10 * h + i
      if 1 ≤ m ∧ m ≤ 12 ∧ 1 ≤ d ∧ d ≤ daysInMonth y m then
        some (daysFromCivil y m d)
      else none
    else none
  | _ => none

/-- Time value of `new Date(text)` for a date-input text: UTC midnight of the
day it names.  Every other text gives `none` (`NaN`); the engines read some
texts of other forms by rules of their own, which are not modelled. -/
def newDate (s : String) : Option Int :=
  (isoDay s).map (fun d => d * msPerDay)

/-- Local calendar day (as a day number) of a time value, in the zone `tz`
minutes east of UTC. -/
def localDay (tz : Int) (t : Int) : Int :=
  (t + tz * 60000) / msPerDay

/-- The text `toDateString` returns: it names a local calendar day (kept as its
day number), or is `"Invalid Date"`. -/
inductive DateText where
  | invalidDate
  | day (n : Int)
deriving DecidableEq, Repr

/-- Embedding of `Date.prototype.toDateString`. -/
def toDateString (tz : Int) (t : Option Int) : DateText :=
  match t with
  | none => DateText.invalidDate
  | some v => DateText.day (localDay tz v)

/-- Calendar date (year, month, day of the month) of a day number. -/
def civilFromDays (n : Int) : Int × Int × Int :=
  let z := n + 719468
  let era := z / 146097
  let doe := z - era * 146097
  let yoe := (doe - doe / 1460 + doe / 36524 - doe / 146096) / 365
  let doy := doe - (365 * yoe + yoe / 4 - yoe / 100)
  let mp := (5 * doy + 2) / 153
  let d := doy - (153 * mp + 2) / 5 + 1
  let m := if mp < 10 then mp + 3 else mp - 9
  let y := yoe + era * 400
  (if m ≤ 2 then y + 1 else y, m, d)

/-- The year `new Date(text)` takes a printed year for, in a text of the form
`toDateString` prints: a year printed 0000 to 0049 is read as 2000 to 2049, a
year printed 0050 to 0099 as 1950 to 1999, any other year as printed. -/
def rereadYear (y : Int) : Int :=
  if 0 ≤ y ∧ y < 50 then y + 2000
  else if 50 ≤ y ∧ y < 100 then y + 1900
  else y

/-- Day number `new Date(text)` finds in the text `toDateString` printed for the
day `n`: the same month and day of the month, in the year `rereadYear` gives;
the day `n` itself when the year is read as printed. -/
def rereadDay (n : Int) : Int :=
  let c := civilFromDays n
  if 0 ≤ c.1 ∧ c.1 < 100 then daysFromCivil (rereadYear c.1) c.2.1 c.2.2 else n

/-- Time value of `new Date(text)` for a text made by `toDateString`: local
midnight of the day `rereadDay` finds in it. -/
def newDateOfDateText (tz : Int) (s : DateText) : Option Int :=
  match s with
  | DateText.invalidDate => none
  | DateText.day n => some (rereadDay n * msPerDay - tz * 60000)

/-- Embedding of `a < b` on two `Date` objects: their time values are compared,
and a comparison with `NaN` is false. -/
def dateLt (a b : Option Int) : Bool :=
  match a, b with
  | some x, some y => decide (x < y)
  | _, _ => false

/-- Embedding of `setHours(0, 0, 0, 0)` on a `Date`: the time value becomes local
midnight of its local day; an invalid date stays invalid. -/
def setHoursZero (tz : Int) (t : Option Int) : Option Int :=
  t.map (fun v => localDay tz v * msPerDay - tz * 60000)

/-! ## Markup text -/

/-- The replacement `map[m]` of `escapeHtml` for one character; a character the
pattern `/[&<>"']/` does not match stays. -/
def escapeHtmlChar (c : Char) : List Char :=
  if c = '&' then "&amp;".data
  else if c = '<' then "&lt;".data
  else if c = '>' then "&gt;".data
  else if c = Char.ofNat 34 then "&quot;".data
  else if c = Char.ofNat 39 then "&#039;".data
  else [c]

/-- Embedding of `escapeHtml(text)`: every match of the global pattern is
replaced, the rest is copied. -/
def escapeHtml (text : String) : String := ⟨text.data.flatMap escapeHtmlChar⟩

/-- The five entities `escapeHtml` writes. -/
def htmlEntities : List (List Char) :=
  ["&amp;".data, "&lt;".data, "&gt;".data, "&quot;".data, "&#039;".data]

/-! ## `JSON.parse`

The values `JSON.parse` builds, and a reader of JSON text after the grammar of
ECMA-404.  Numbers are kept as exact decimals (`mantissa × 10 ^ exponent`), not
rounded to binary floating point; an escape that names half of a surrogate pair
with no partner is read as U+FFFD.  The reader works on a bounded number of
nested calls; `JSONparse` gives it twice the length of the text plus two.
Reaching the bound is reported as `outOfFuel`, apart from `syntaxError`, and
`JSONparse_stringify` shows the bound is enough for every text that
`JSON.stringify` writes for a task list. -/

/-- A value built by `JSON.parse`. -/
inductive JSON where
  | null
  | bool (b : Bool)
  | num (mantissa : Int) (exponent : Int)
  | str (s : String)
  | arr (items : List JSON)
  | obj (members : List (String × JSON))

/-- How the reader can fail: `syntaxError` is the `SyntaxError` that `JSON.parse`
throws; `outOfFuel` says the bound on nested calls was reached. -/
inductive ParseError where
  | syntaxError
  | outOfFuel
deriving DecidableEq, Repr

/-- JSON white space. -/
def isJsonWs (c : Char) : Bool :=
  c.toNat == 0x20 || c.toNat == 0x09 || c.toNat == 0x0A || c.toNat == 0x0D

/-- Skip JSON white space. -/
def skipWs (cs : List Char) : List Char := cs.dropWhile isJsonWs

/-- A decimal digit. -/
def isDecDigit (c : Char) : Bool := 48 ≤ c.toNat && c.toNat ≤ 57

/-- Value of a sequence of decimal digits. -/
def digitsValue (ds : List Char) : Nat :=
  ds.foldl (fun v c => 10 * v + (c.toNat - 48)) 0

/-- Value of a hexadecimal digit. -/
def hexVal (c : Char) : Option Nat :=
  let n := c.toNat
  if 48 ≤ n ∧ n ≤ 57 then some (n - 48)
  else if 97 ≤ n ∧ n ≤ 102 then some (n - 87)
  else if 65 ≤ n ∧ n ≤ 70 then some (n - 55)
  else none

/-- The character a one-letter escape stands for. -/
def unescape (c : Char) : Option Char :=
  let n := c.toNat
  if n == 0x22 then some (Char.ofNat 0x22)
  else if n == 0x5C then some (Char.ofNat 0x5C)
  else if n == 0x2F then some (Char.ofNat 0x2F)
  else if c = 'b' then some (Char.ofNat 0x08)
  else if c = 'f' then some (Char.ofNat 0x0C)
  else if c = 'n' then some (Char.ofNat 0x0A)
  else if c = 'r' then some (Char.ofNat 0x0D)
  else if c = 't' then some (Char.ofNat 0x09)
  else none

/-- What a leading surrogate still waiting for its partner turns into when no
partner comes. -/
def flushHigh (hi : Option Nat) : List Char :=
  match hi with
  | none => []
  | some _ => [Char.ofNat 0xFFFD]

/-- The characters given by the code unit `w` of a `\u` escape, after a waiting
leading surrogate `hi` if there is one, and the leading surrogate that waits
afterwards. -/
def unitChars (hi : Option Nat) (w : Nat) : List Char × Option Nat :=
  match hi with
  | some h =>
    if 0xDC00 ≤ w ∧ w ≤ 0xDFFF then
      ([Char.ofNat (0x10000 + (h - 0xD800) * 0x400 + (w - 0xDC00))], none)
    else if 0xD800 ≤ w ∧ w ≤ 0xDBFF then ([Char.ofNat 0xFFFD], some w)
    else ([Char.ofNat 0xFFFD, Char.ofNat w], none)
  | none =>
    if 0xD800 ≤ w ∧ w ≤ 0xDBFF then ([], some w)
    else if 0xDC00 ≤ w ∧ w ≤ 0xDFFF then ([Char.ofNat 0xFFFD], none)
    else ([Char.ofNat w], none)

/-- Where the reader stands inside a string literal. -/
inductive StrState where
  | normal
  | escape
  | hex (left : Nat) (value : Nat)

/-- Put characters in front of the text of a result. -/
def prependChars (out : List Char)
    (r : Except ParseError (List Char × List Char)) :
    Except ParseError (List Char × List Char) :=
  match r with
  | Except.ok (s, rest) => Except.ok (out ++ s, rest)
  | Except.error e => Except.error e

/-- Read a string literal after its opening quote: the text and what follows the
closing quote. -/
def parseStringBody : StrState → Option Nat → List Char →
    Except ParseError (List Char × List Char)
  | _, _, [] => Except.error ParseError.syntaxError
  | StrState.normal, hi, c :: cs =>
    if c.toNat = 0x22 then Except.ok (flushHigh hi, cs)
    else if c.toNat = 0x5C then parseStringBody StrState.escape hi cs
    else if c.toNat < 0x20 then Except.error ParseError.syntaxError
    else prependChars (flushHigh hi ++ [c]) (parseStringBody StrState.normal none cs)
  | StrState.escape, hi, c :: cs =>
    if c = 'u' then parseStringBody (StrState.hex 4 0) hi cs
    else
      match unescape c with
      | some x => prependChars (flushHigh hi ++ [x]) (parseStringBody StrState.normal none cs)
      | none => Except.error ParseError.syntaxError
  | StrState.hex left v, hi, c :: cs =>
    match hexVal c with
    | none => Except.error ParseError.syntaxError
    | some d =>
      if left ≤ 1 then
        prependChars (unitChars hi (16 * v + d)).1
          (parseStringBody StrState.normal (unitChars hi (16 * v + d)).2 cs)
      else parseStringBody (StrState.hex (left - 1) (16 * v + d)) hi cs

/-- Read the fraction of a number, if there is one: its digits and the rest. -/
def parseFraction (cs : List Char) : Except ParseError (List Char × List Char) :=
  match cs with
  | [] => Except.ok ([], [])
  | c :: r =>
    if c = '.' then
      if r.takeWhile isDecDigit = [] then Except.error ParseError.syntaxError
      else Except.ok (r.takeWhile isDecDigit, r.dropWhile isDecDigit)
    else Except.ok ([], c :: r)

/-- Read the digits of an exponent after its sign. -/
def parseExponentDigits (sign : Int) (cs : List Char) :
    Except ParseError (Int × List Char) :=
  if cs.takeWhile isDecDigit = [] then Except.error ParseError.syntaxError
  else Except.ok (sign * digitsValue (cs.takeWhile isDecDigit), cs.dropWhile isDecDigit)

/-- Read the exponent of a number, if there is one: its value and the rest. -/
def parseExponent (cs : List Char) : Except ParseError (Int × List Char) :=
  match cs with
  | [] => Except.ok (0, [])
  | c :: r =>
    if c = 'e' ∨ c = 'E' then
      match r with
      | [] => Except.error ParseError.syntaxError
      | s :: r2 =>
        if s = '+' then parseExponentDigits 1 r2
        else if s = '-' then parseExponentDigits (-1) r2
        else parseExponentDigits 1 (s :: r2)
    else Except.ok (0, c :: r)

/-- Read a number after its sign: `0` or a digit from 1 to 9 with more digits,
then a fraction and an exponent if present. -/
def parseUnsigned (sign : Int) (cs : List Char) : Except ParseError (JSON × List Char) :=
  match cs with
  | [] => Except.error ParseError.syntaxError
  | d :: r =>
    if isDecDigit d then
      let ip := if d = '0' then [d] else d :: r.takeWhile isDecDigit
      let cs2 := if d = '0' then r else r.dropWhile isDecDigit
      match parseFraction cs2 with
      | Except.error e => Except.error e
      | Except.ok (fp, cs3) =>
        match parseExponent cs3 with
        | Except.error e => Except.error e
        | Except.ok (ex, cs4) =>
          Except.ok (JSON.num (sign * digitsValue (ip ++ fp)) (ex - fp.length), cs4)
    else Except.error ParseError.syntaxError

/-- Read a number. -/
def parseNumber (cs : List Char) : Except ParseError (JSON × List Char) :=
  match cs with
  | [] => Except.error ParseError.syntaxError
  | c :: r => if c = '-' then parseUnsigned (-1) r else parseUnsigned 1 (c :: r)

/-- Read the rest of a fixed word (`true`, `false`, `null`). -/
def parseWord (word : List Char) (v : JSON) (cs : List Char) :
    Except ParseError (JSON × List Char) :=
  if cs.take word.length = word then Except.ok (v, cs.drop word.length)
  else Except.error ParseError.syntaxError

mutual

/-- Read one value; the first argument bounds the nested calls. -/
def parseValue : Nat → List Char → Except ParseError (JSON × List Char)
  | 0, _ => Except.error ParseError.outOfFuel
  | fuel + 1, cs =>
    match skipWs cs with
    | [] => Except.error ParseError.syntaxError
    | c :: rest =>
      if c.toNat = 0x7B then
        match skipWs rest with
        | [] => Except.error ParseError.syntaxError
        | c2 :: rest2 =>
          if c2.toNat = 0x7D then Except.ok (JSON.obj [], rest2)
          else
            match parseMembers fuel (c2 :: rest2) with
            | Except.ok (ms, rest3) => Except.ok (JSON.obj ms, rest3)
            | Except.error e => Except.error e
      else if c = '[' then
        match skipWs rest with
        | [] => Except.error ParseError.syntaxError
        | c2 :: rest2 =>
          if c2 = ']' then Except.ok (JSON.arr [], rest2)
          else
            match parseElements fuel (c2 :: rest2) with
            | Except.ok (vs, rest3) => Except.ok (JSON.arr vs, rest3)
            | Except.error e => Except.error e
      else if c.toNat = 0x22 then
        match parseStringBody StrState.normal none rest with
        | Except.ok (s, rest2) => Except.ok (JSON.str ⟨s⟩, rest2)
        | Except.error e => Except.error e
      else if c = 't' then parseWord "true".data (JSON.bool true) (c :: rest)
      else if c = 'f' then parseWord "false".data (JSON.bool false) (c :: rest)
      else if c = 'n' then parseWord "null".data JSON.null (c :: rest)
      else parseNumber (c :: rest)

/-- Read the elements of an array up to and with its closing bracket. -/
def parseElements : Nat → List Char → Except ParseError (List JSON × List Char)
  | 0, _ => Except.error ParseError.outOfFuel
  | fuel + 1, cs =>
    match parseValue fuel cs with
    | Except.error e => Except.error e
    | Except.ok (v, rest) =>
      match skipWs rest with
      | [] => Except.error ParseError.syntaxError
      | c :: rest2 =>
        if c = ',' then
          match parseElements fuel rest2 with
          | Except.ok (vs, rest3) => Except.ok (v :: vs, rest3)
          | Except.error e => Except.error e
        else if c = ']' then Except.ok ([v], rest2)
        else Except.error ParseError.syntaxError

/-- Read the members of an object up to and with its closing brace. -/
def parseMembers : Nat → List Char → Except ParseError (List (String × JSON) × List Char)
  | 0, _ => Except.error ParseError.outOfFuel
  | fuel + 1, cs =>
    match skipWs cs with
    | [] => Except.error ParseError.syntaxError
    | q :: rest =>
      if q.toNat = 0x22 then
        match parseStringBody StrState.normal none rest with
        | Except.error e => Except.error e
        | Except.ok (k, rest2) =>
          match skipWs rest2 with
          | [] => Except.error ParseError.syntaxError
          | c :: rest3 =>
            if c = ':' then
              match parseValue fuel rest3 with
              | Except.error e => Except.error e
              | Except.ok (v, rest4) =>
                match skipWs rest4 with
                | [] => Except.error ParseError.syntaxError
                | c2 :: rest5 =>
                  if c2 = ',' then
                    match parseMembers fuel rest5 with
                    | Except.ok (ms, rest6) => Except.ok ((⟨k⟩, v) :: ms, rest6)
                    | Except.error e => Except.error e
                  else if c2.toNat = 0x7D then Except.ok ([(⟨k⟩, v)], rest5)
                  else Except.error ParseError.syntaxError
            else Except.error ParseError.syntaxError
      else Except.error ParseError.syntaxError

end

/-- Embedding of `JSON.parse(text)`: one value with nothing but white space
after it. -/
def JSONparse (text : String) : Except ParseError JSON :=
  match parseValue (2 * text.length + 2) text.data with
  | Except.error e => Except.error e
  | Except.ok (v, rest) =>
    if skipWs rest = [] then Except.ok v else Except.error ParseError.syntaxError

/-- The integer a parsed number is, if it is one. -/
def JSON.toInt? : JSON → Option Int
  | JSON.num m e =>
    if 0 ≤ e then some (m * 10 ^ e.toNat)
    else if m % 10 ^ (-e).toNat = 0 then some (m / 10 ^ (-e).toNat) else none
  | _ => none

/-- The text a parsed value is, if it is one. -/
def JSON.toString? : JSON → Option String
  | JSON.str s => some s
  | _ => none

/-- The boolean a parsed value is, if it is one. -/
def JSON.toBool? : JSON → Option Bool
  | JSON.bool b => some b
  | _ => none

/-- Value of the property `k` of a parsed object: the last member with that
name. -/
def lookupMember (k : String) (ms : List (String × JSON)) : Option JSON :=
  (ms.reverse.find? (fun m => m.1 == k)).map (fun m => m.2)

/-- Reading of a parsed value as a task record: an object whose properties `id`,
`task`, `dueDate`, `completed`, `createdAt` are an integer, two texts, a boolean
and a text. -/
def todoOfJSON : JSON → Option Todo
  | JSON.obj ms => do
    let id ← (← lookupMember "id" ms).toInt?
    let task ← (← lookupMember "task" ms).toString?
    let dueDate ← (← lookupMember "dueDate" ms).toString?
    let completed ← (← lookupMember "completed" ms).toBool?
    let createdAt ← (← lookupMember "createdAt" ms).toString?
    some { id := id, task := task, dueDate := dueDate, completed := completed,
           createdAt := createdAt }
  | _ => none

/-- Reading of a parsed value as a task list: an array of task records; `none`
for a value of another shape, which the state type of the embedding leaves out. -/
def todosOfJSON : JSON → Option (List Todo)
  | JSON.arr items => items.mapM todoOfJSON
  | _ => none

/-- The value `JSON.parse` builds for the serialisation of one task. -/
def todoToJSON (t : Todo) : JSON :=
  JSON.obj [("id", JSON.num t.id 0), ("task", JSON.str t.task),
    ("dueDate", JSON.str t.dueDate), ("completed", JSON.bool t.completed),
    ("createdAt", JSON.str t.createdAt)]

/-! ## The engine -/

namespace TodoApp

/-- Embedding of `saveTodos`: the item `'todos'` becomes the serialised array. -/
def saveTodos (app : TodoApp) : TodoApp :=
  { app with localStorage := some (stringify app.todos) }

/-- Text of the box shown for a blank description. -/
def msgNoTask : String := "Mohon masukkan task!"

/-- Text of the box shown for an absent date. -/
def msgNoDate : String := "Mohon pilih tanggal!"

/-- Text of the confirmation asked for a date found to be in the past. -/
def msgPastDate : String := "Tanggal yang dipilih sudah terlewat. Tetap lanjutkan?"

/-- Text of the confirmation asked by `deleteTodo`. -/
def msgDeleteOne : String := "Yakin ingin menghapus task ini?"

/-- Text of the box shown by `deleteAllTodos` on an empty array. -/
def msgNothingToDelete : String := "Tidak ada task untuk dihapus!"

/-- Text of the confirmation asked by `deleteAllTodos` for `n` tasks. -/
def msgDeleteAll (n : Nat) : String :=
  "Yakin ingin menghapus semua " ++ toString n ++ " task?"

/-- Embedding of `validateInput(task, date)`.  `tz` is the local offset, `now` the
clock reading of `new Date()`, `answer` what the user answers if `confirm` is
shown.  Returns the method's result and the boxes shown. -/
def validateInput (tz now : Int) (answer : Bool) (task date : String) :
    Bool × List Dialog :=
  if task = "" then (false, [Dialog.alert msgNoTask])
  else if date = "" then (false, [Dialog.alert msgNoDate])
  else
    let today := toDateString tz (some now)
    let selectedDate := toDateString tz (newDate date)
    if dateLt (newDateOfDateText tz selectedDate) (newDateOfDateText tz today) then
      if !answer then (false, [Dialog.confirm msgPastDate])
      else (true, [Dialog.confirm msgPastDate])
    else (true, [])

/-- What the browser supplies to one run of `handleAddTodo`. -/
structure AddInput where
  /-- Value of the description field. -/
  taskInput : String
  /-- Value of the date field. -/
  dateInput : String
  /-- Local offset, minutes east of UTC. -/
  tz : Int
  /-- Clock reading of `new Date()` in `validateInput`. -/
  now : Int
  /-- Answer to the past-date confirmation, if it is asked. -/
  answer : Bool
  /-- Reading of `Date.now()`. -/
  dateNow : Int
  /-- Text of `new Date().toISOString()`. -/
  isoNow : String
deriving DecidableEq, Repr

/-- Embedding of `handleAddTodo`: the new state and the boxes shown. -/
def handleAddTodo (app : TodoApp) (i : AddInput) : TodoApp × List Dialog :=
  let taskText := trim i.taskInput
  let dueDate := i.dateInput
  let v := validateInput i.tz i.now i.answer taskText dueDate
  if !v.1 then (app, v.2)
  else
    let newTodo : Todo :=
      { id := i.dateNow, task := taskText, dueDate := dueDate,
        completed := false, createdAt := i.isoNow }
    (saveTodos { app with todos := newTodo :: app.todos }, v.2)

/-- The assignment `todo.completed = !todo.completed` on the object that
`find(t => t.id === id)` returns: the first task with that id, in place. -/
def flipFirst (id : Int) : List Todo → List Todo
  | [] => []
  | t :: ts =>
    if t.id = id then { t with completed := !t.completed } :: ts
    else t :: flipFirst id ts

/-- Embedding of `toggleTodo(id)`. -/
def toggleTodo (app : TodoApp) (id : Int) : TodoApp :=
  match app.todos.find? (fun t => t.id == id) with
  | some _ => saveTodos { app with todos := flipFirst id app.todos }
  | none => app

/-- Embedding of `deleteTodo(id)`; `answer` is the user's answer to `confirm`. -/
def deleteTodo (app : TodoApp) (id : Int) (answer : Bool) : TodoApp × List Dialog :=
  if answer then
    (saveTodos { app with todos := app.todos.filter (fun t => t.id != id) },
      [Dialog.confirm msgDeleteOne])
  else (app, [Dialog.confirm msgDeleteOne])

/-- Embedding of `deleteAllTodos()`; `answer` is the user's answer to `confirm`,
if it is asked. -/
def deleteAllTodos (app : TodoApp) (answer : Bool) : TodoApp × List Dialog :=
  if app.todos.length = 0 then (app, [Dialog.alert msgNothingToDelete])
  else if answer then
    (saveTodos { app with todos := [] }, [Dialog.confirm (msgDeleteAll app.todos.length)])
  else (app, [Dialog.confirm (msgDeleteAll app.todos.length)])

/-- Embedding of `getFilteredTodos()`. -/
def getFilteredTodos (app : TodoApp) : List Todo :=
  if app.currentFilter = "completed" then app.todos.filter (fun todo => todo.completed)
  else if app.currentFilter = "pending" then app.todos.filter (fun todo => !todo.completed)
  else app.todos

/-- Embedding of `loadTodos()`: `item` is what `localStorage.getItem('todos')`
returns (`none` for `null`).  An absent item and the empty text are falsy and
give the empty array; any other text goes to `JSON.parse`, whose `SyntaxError`
is not caught. -/
def loadTodos (item : Option String) : Except ParseError JSON :=
  match item with
  | none => Except.ok (JSON.arr [])
  | some saved => if saved = "" then Except.ok (JSON.arr []) else JSONparse saved

/-- Embedding of `handleFilter(e)`: `f` is `e.target.dataset.filter`. -/
def handleFilter (app : TodoApp) (f : String) : TodoApp :=
  { app with currentFilter := f }

/-- Embedding of `isOverdue(dateString)`; `tz` is the local offset and `now` the
clock reading of `new Date()`. -/
def isOverdue (tz now : Int) (dateString : String) : Bool :=
  let today := setHoursZero tz (some now)
  let dueDate := setHoursZero tz (newDate dateString)
  dateLt dueDate today

/-- The status text `render` computes for one task. -/
def statusText (tz now : Int) (todo : Todo) : String :=
  let isOverdue := isOverdue tz now todo.dueDate && !todo.completed
  if todo.completed then "Completed" else (if isOverdue then "Overdue" else "Pending")

/-- One user action on the page, with what the browser supplies to its handler. -/
inductive Op where
  | add (i : AddInput)
  | toggle (id : Int)
  | delete (id : Int) (answer : Bool)
  | deleteAll (answer : Bool)
  | filter (f : String)
deriving DecidableEq, Repr

/-- The state after one action. -/
def step (app : TodoApp) : Op → TodoApp
  | Op.add i => (handleAddTodo app i).1
  | Op.toggle id => toggleTodo app id
  | Op.delete id answer => (deleteTodo app id answer).1
  | Op.deleteAll answer => (deleteAllTodos app answer).1
  | Op.filter f => handleFilter app f

/-- The state after a sequence of actions, first action first. -/
def run (app : TodoApp) (ops : List Op) : TodoApp :=
  ops.foldl step app

/-- The clock readings `Date.now()` of the additions in a sequence of actions. -/
def addReadings : List Op → List Int
  | [] => []
  | Op.add i :: ops => i.dateNow :: addReadings ops
  | _ :: ops => addReadings ops

/-- The stored item is the serialisation of the task list. -/
def synced (app : TodoApp) : Prop :=
  app.localStorage = some (stringify app.todos)

instance (app : TodoApp) : Decidable (synced app) :=
  inferInstanceAs (Decidable (app.localStorage = some (stringify app.todos)))

/-- The text of a task is not empty, holds a character that is not white space,
and neither starts nor ends with white space. -/
def cleanTask (t : Todo) : Prop :=
  t.task ≠ "" ∧
  (∃ c ∈ t.task.data, isJsWhiteSpace c = false) ∧
  (∃ c, t.task.data.head? = some c ∧ isJsWhiteSpace c = false) ∧
  (∃ c, t.task.data.getLast? = some c ∧ isJsWhiteSpace c = false)

end TodoApp

/-! ## Shared lemmas -/

section Lemmas

open TodoApp

theorem trimChars_of_all_white (cs : List Char)
    (h : ∀ c ∈ cs, isJsWhiteSpace c = true) : trimChars cs = [] := by
  have h1 : cs.dropWhile isJsWhiteSpace = [] := by
    induction cs with
    | nil => rfl
    | cons c cs ih =>
      have hc : isJsWhiteSpace c = true := h c (List.mem_cons_self c cs)
      have ht : ∀ x ∈ cs, isJsWhiteSpace x = true :=
        fun x hx => h x (List.mem_cons_of_mem c hx)
      simp [List.dropWhile, hc, ih ht]
  simp [trimChars, h1]

theorem trim_of_all_white (s : String)
    (h : ∀ c ∈ s.data, isJsWhiteSpace c = true) : trim s = "" := by
  unfold trim
  rw [trimChars_of_all_white s.data h]

theorem isoDay_ne_empty (s : String) (d : Int) (h : isoDay s = some d) : s ≠ "" := by
  intro hs
  subst hs
  simp [isoDay] at h

/-- From the first day of the year 0100 on, the year of a day has three digits
or more. -/
theorem civilFromDays_year_ge (n : Int) (h : -683003 ≤ n) : 100 ≤ (civilFromDays n).1 := by
  unfold civilFromDays
  simp only
  split <;> omega

/-- From the first day of the year 0100 on, the text `toDateString` printed is
read back as the day it was printed for. -/
theorem rereadDay_of_recent (n : Int) (h : -683003 ≤ n) : rereadDay n = n := by
  have hy := civilFromDays_year_ge n h
  unfold rereadDay
  simp only
  rw [if_neg (by omega)]

/-- For a present description and a date text naming day `d`, the method asks
for the confirmation exactly when the day read back from the printed local day
of UTC midnight of `d` is before the day read back from the printed local day of
the clock reading. -/
theorem validateInput_of_isoDay (tz now : Int) (answer : Bool) (task date : String)
    (d : Int) (ht : task ≠ "") (hd : isoDay date = some d) :
    validateInput tz now answer task date =
      if rereadDay (localDay tz (d * msPerDay)) < rereadDay (localDay tz now) then
        (answer, [Dialog.confirm msgPastDate])
      else (true, []) := by
  have hne : date ≠ "" := isoDay_ne_empty date d hd
  have key : (rereadDay (localDay tz (d * msPerDay)) * msPerDay - tz * 60000 <
      rereadDay (localDay tz now) * msPerDay - tz * 60000) ↔
      rereadDay (localDay tz (d * msPerDay)) < rereadDay (localDay tz now) := by
    unfold msPerDay
    constructor <;> intro h <;> omega
  simp only [validateInput, if_neg ht, if_neg hne, newDate, hd, Option.map_some',
    toDateString, newDateOfDateText, dateLt, decide_eq_true_eq, key]
  by_cases hlt : rereadDay (localDay tz (d * msPerDay)) < rereadDay (localDay tz now)
  · cases answer <;> simp [hlt]
  · simp [hlt]

/-- The same when both local days are in the year 0100 or later: the local days
themselves are compared. -/
theorem validateInput_of_isoDay_recent (tz now : Int) (answer : Bool) (task date : String)
    (d : Int) (ht : task ≠ "") (hd : isoDay date = some d)
    (h1 : -683003 ≤ localDay tz (d * msPerDay)) (h2 : -683003 ≤ localDay tz now) :
    validateInput tz now answer task date =
      if localDay tz (d * msPerDay) < localDay tz now then
        (answer, [Dialog.confirm msgPastDate])
      else (true, []) := by
  rw [validateInput_of_isoDay tz now answer task date d ht hd, rereadDay_of_recent _ h1,
    rereadDay_of_recent _ h2]

/-- In a zone less than a day ahead of UTC, UTC midnight of day `d` falls on
local day `d` or earlier. -/
theorem localDay_utc_midnight_le (tz d : Int) (h : tz < 1440) :
    localDay tz (d * msPerDay) ≤ d := by
  unfold localDay msPerDay
  omega

/-- In a zone at or ahead of UTC (by less than a day), UTC midnight of day `d`
falls on local day `d`. -/
theorem localDay_utc_midnight_east (tz d : Int) (h0 : 0 ≤ tz) (h : tz < 1440) :
    localDay tz (d * msPerDay) = d := by
  unfold localDay msPerDay
  omega

/-- In a zone behind UTC (by at most a day), UTC midnight of day `d` falls on
the local day before `d`. -/
theorem localDay_utc_midnight_west (tz d : Int) (h0 : tz < 0) (h : -1440 ≤ tz) :
    localDay tz (d * msPerDay) = d - 1 := by
  unfold localDay msPerDay
  omega

/-- A run whose validation succeeds puts the new task at the head and saves. -/
theorem handleAddTodo_of_valid (app : TodoApp) (i : AddInput) (ds : List Dialog)
    (h : validateInput i.tz i.now i.answer (trim i.taskInput) i.dateInput = (true, ds)) :
    handleAddTodo app i =
      (saveTodos { app with todos :=
        { id := i.dateNow, task := trim i.taskInput, dueDate := i.dateInput,
          completed := false, createdAt := i.isoNow } :: app.todos }, ds) := by
  simp [handleAddTodo, h]

/-- A run whose validation fails changes nothing. -/
theorem handleAddTodo_of_invalid (app : TodoApp) (i : AddInput) (ds : List Dialog)
    (h : validateInput i.tz i.now i.answer (trim i.taskInput) i.dateInput = (false, ds)) :
    handleAddTodo app i = (app, ds) := by
  simp [handleAddTodo, h]

end Lemmas

/-! ## Adding a task -/

section Add

open TodoApp

/-- Away from the defect shown under C1: in a zone at or ahead of UTC, at a clock
reading not before 1970, a present description with a date that is today or
later is added without any box. -/
theorem handleAddTodo_not_past_east (app : TodoApp) (i : AddInput) (d : Int)
    (hdesc : trim i.taskInput ≠ "") (hdate : isoDay i.dateInput = some d)
    (hnot : localDay i.tz i.now ≤ d) (h0 : 0 ≤ i.tz) (htz : i.tz < 1440)
    (hclock : 0 ≤ i.now) :
    handleAddTodo app i =
      (saveTodos { app with todos :=
        { id := i.dateNow, task := trim i.taskInput, dueDate := i.dateInput,
          completed := false, createdAt := i.isoNow } :: app.todos }, []) := by
  apply handleAddTodo_of_valid
  have hday : 0 ≤ localDay i.tz i.now := by
    unfold localDay msPerDay
    omega
  have hsel := localDay_utc_midnight_east i.tz d h0 htz
  rw [validateInput_of_isoDay_recent i.tz i.now i.answer _ _ d hdesc hdate
    (by rw [hsel]; omega) (by omega), hsel]
  simp [not_lt.mpr hnot]

/-- C1, at the input where the code departs from it: in a zone five hours behind
UTC, at local noon of 2024-01-02, the description "Buy milk" with the due date
2024-01-02 (today, not before today) makes `handleAddTodo` ask the past-date
confirmation, and with the confirmation declined nothing is added: the list and
the stored item stay as they were. -/
theorem C1_handleAddTodo_today_behind_utc_not_added :
    trim "Buy milk" ≠ "" ∧
    isoDay "2024-01-02" = some 19724 ∧
    localDay (-300) 1704214800000 = 19724 ∧
    handleAddTodo { todos := [], currentFilter := "all", localStorage := none }
      { taskInput := "Buy milk", dateInput := "2024-01-02", tz := -300,
        now := 1704214800000, answer := false, dateNow := 1704214800000,
        isoNow := "2024-01-02T17:00:00.000Z" } =
      ({ todos := [], currentFilter := "all", localStorage := none },
        [Dialog.confirm msgPastDate]) := by
  decide

/-- C2: a description that is empty or made of white space only is refused with
the missing-description box, whatever the date field, the zone, the clock and
the answer are; it is the only box shown (no confirmation is asked) and the
state, list and stored item included, is unchanged. -/
theorem C2_handleAddTodo_blank_description (app : TodoApp) (i : AddInput)
    (hblank : ∀ c ∈ i.taskInput.data, isJsWhiteSpace c = true) :
    handleAddTodo app i = (app, [Dialog.alert msgNoTask]) := by
  apply handleAddTodo_of_invalid
  simp [validateInput, trim_of_all_white i.taskInput hblank]

theorem C2_handleAddTodo_blank_description_witness :
    (∀ c ∈ (" \t\n " : String).data, isJsWhiteSpace c = true) ∧
    handleAddTodo
      { todos := [{ id := 7, task := "old", dueDate := "2024-03-01", completed := true,
                    createdAt := "2024-01-01T00:00:00.000Z" }],
        currentFilter := "all", localStorage := some "[]" }
      { taskInput := " \t\n ", dateInput := "2020-01-01", tz := 420,
        now := 1704214800000, answer := true, dateNow := 1704214800000,
        isoNow := "2024-01-02T17:00:00.000Z" } =
      ({ todos := [{ id := 7, task := "old", dueDate := "2024-03-01", completed := true,
                     createdAt := "2024-01-01T00:00:00.000Z" }],
         currentFilter := "all", localStorage := some "[]" },
        [Dialog.alert msgNoTask]) :=
  ⟨by decide, C2_handleAddTodo_blank_description _ _ (by decide)⟩

/-- C3 as stated fails: with a present description, the date text "abc" (present,
not a calendar date) is not refused: no box is shown and the task is added and
saved. -/
theorem C3_malformed_date_is_added :
    trim "Buy milk" ≠ "" ∧
    isoDay "abc" = none ∧
    handleAddTodo { todos := [], currentFilter := "all", localStorage := none }
      { taskInput := "Buy milk", dateInput := "abc", tz := 420,
        now := 1704214800000, answer := false, dateNow := 1704214800000,
        isoNow := "2024-01-02T17:00:00.000Z" } =
      ({ todos := [{ id := 1704214800000, task := "Buy milk", dueDate := "abc",
                     completed := false, createdAt := "2024-01-02T17:00:00.000Z" }],
         currentFilter := "all",
         localStorage := some (stringify
           [{ id := 1704214800000, task := "Buy milk", dueDate := "abc",
              completed := false, createdAt := "2024-01-02T17:00:00.000Z" }]) },
        []) := by
  decide

/-- C3, amended: with a present description, an absent date (the empty text) is
refused with the missing-date box, the only box shown, and the state, list and
stored item included, is unchanged. -/
theorem C3_handleAddTodo_absent_date (app : TodoApp) (i : AddInput)
    (hdesc : trim i.taskInput ≠ "") (hdate : i.dateInput = "") :
    handleAddTodo app i = (app, [Dialog.alert msgNoDate]) := by
  apply handleAddTodo_of_invalid
  simp [validateInput, hdesc, hdate]

theorem C3_handleAddTodo_absent_date_witness :
    trim " Buy milk " ≠ "" ∧ ("" : String) = "" ∧
    handleAddTodo { todos := [], currentFilter := "all", localStorage := none }
      { taskInput := " Buy milk ", dateInput := "", tz := 420,
        now := 1704214800000, answer := true, dateNow := 1704214800000,
        isoNow := "2024-01-02T17:00:00.000Z" } =
      ({ todos := [], currentFilter := "all", localStorage := none },
        [Dialog.alert msgNoDate]) :=
  ⟨by decide, rfl, C3_handleAddTodo_absent_date _ _ (by decide) rfl⟩

/-- Away from the defect shown under C4: for a due day in the year 0100 or
later that is before the current local day, in a zone within a day of UTC, a
declined confirmation leaves the state unchanged and the confirmation is the
only box shown. -/
theorem handleAddTodo_past_declined_recent (app : TodoApp) (i : AddInput) (d : Int)
    (hdesc : trim i.taskInput ≠ "") (hdate : isoDay i.dateInput = some d)
    (hpast : d < localDay i.tz i.now) (hlo : -1440 ≤ i.tz) (htz : i.tz < 1440)
    (hyear : -683002 ≤ d) (hans : i.answer = false) :
    handleAddTodo app i = (app, [Dialog.confirm msgPastDate]) := by
  apply handleAddTodo_of_invalid
  have hle := localDay_utc_midnight_le i.tz d htz
  have hge : d - 1 ≤ localDay i.tz (d * msPerDay) := by
    unfold localDay msPerDay
    omega
  rw [validateInput_of_isoDay_recent i.tz i.now i.answer _ _ d hdesc hdate
    (by omega) (by omega), if_pos (lt_of_le_of_lt hle hpast), hans]

/-- C4, at the input where the code departs from it: in the zone of UTC, at the
clock reading 1704214800000 (2024-01-02), the description "Buy milk" with the
due date 0030-01-01, a day strictly before the current day, is not found to be
in the past: `toDateString` prints the year as 0030 and `new Date` reads that
text as a day of 2030.  No confirmation is asked, and with the answer set to
decline the task is added and saved all the same. -/
theorem C4_handleAddTodo_year_0030_added :
    trim "Buy milk" ≠ "" ∧
    isoDay "0030-01-01" = some (-708570) ∧
    (-708570 : Int) < localDay 0 1704214800000 ∧
    rereadDay (localDay 0 (-708570 * msPerDay)) = 21915 ∧
    handleAddTodo { todos := [], currentFilter := "all", localStorage := none }
      { taskInput := "Buy milk", dateInput := "0030-01-01", tz := 0,
        now := 1704214800000, answer := false, dateNow := 1704214800000,
        isoNow := "2024-01-02T17:00:00.000Z" } =
      ({ todos := [{ id := 1704214800000, task := "Buy milk", dueDate := "0030-01-01",
                     completed := false, createdAt := "2024-01-02T17:00:00.000Z" }],
         currentFilter := "all",
         localStorage := some (stringify
           [{ id := 1704214800000, task := "Buy milk", dueDate := "0030-01-01",
              completed := false, createdAt := "2024-01-02T17:00:00.000Z" }]) },
        []) := by
  decide

/-- C5: with a present description and a date text naming a day strictly before
the current local day, in every zone and at every clock reading, an accepted
confirmation makes the add go through to the state every successful add ends in
(`handleAddTodo_of_valid`): the new task, not completed and carrying the given
past date, is put at the head of the list, the former tasks follow, the filter
is kept, and the stored item is the serialisation of the new list.  No box other
than the past-date confirmation is shown; and it is shown when the due day is in
the year 0100 or later and the zone is within a day of UTC. -/
theorem C5_handleAddTodo_past_accepted (app : TodoApp) (i : AddInput) (d : Int)
    (hdesc : trim i.taskInput ≠ "") (hdate : isoDay i.dateInput = some d)
    (hpast : d < localDay i.tz i.now) (hans : i.answer = true) :
    (handleAddTodo app i).1 =
      { todos :=
          { id := i.dateNow, task := trim i.taskInput, dueDate := i.dateInput,
            completed := false, createdAt := i.isoNow } :: app.todos,
        currentFilter := app.currentFilter,
        localStorage := some (stringify
          ({ id := i.dateNow, task := trim i.taskInput, dueDate := i.dateInput,
             completed := false, createdAt := i.isoNow } :: app.todos)) } ∧
    ((handleAddTodo app i).2 = [] ∨
      (handleAddTodo app i).2 = [Dialog.confirm msgPastDate]) ∧
    (-683002 ≤ d → -1440 ≤ i.tz → i.tz < 1440 →
      (handleAddTodo app i).2 = [Dialog.confirm msgPastDate]) := by
  have hv := validateInput_of_isoDay i.tz i.now i.answer _ _ d hdesc hdate
  have hrecent : -683002 ≤ d → -1440 ≤ i.tz → i.tz < 1440 →
      (handleAddTodo app i).2 = [Dialog.confirm msgPastDate] := by
    intro hyear hlo htz
    have hle := localDay_utc_midnight_le i.tz d htz
    have hge : d - 1 ≤ localDay i.tz (d * msPerDay) := by
      unfold localDay msPerDay
      omega
    have hv3 : validateInput i.tz i.now i.answer (trim i.taskInput) i.dateInput =
        (true, [Dialog.confirm msgPastDate]) := by
      rw [validateInput_of_isoDay_recent i.tz i.now i.answer _ _ d hdesc hdate
        (by omega) (by omega), if_pos (lt_of_le_of_lt hle hpast), hans]
    rw [handleAddTodo_of_valid app i _ hv3]
  by_cases hlt : rereadDay (localDay i.tz (d * msPerDay)) < rereadDay (localDay i.tz i.now)
  · have hv2 : validateInput i.tz i.now i.answer (trim i.taskInput) i.dateInput =
        (true, [Dialog.confirm msgPastDate]) := by
      rw [hv, if_pos hlt, hans]
    rw [handleAddTodo_of_valid app i _ hv2] at hrecent ⊢
    exact ⟨rfl, Or.inr rfl, hrecent⟩
  · have hv2 : validateInput i.tz i.now i.answer (trim i.taskInput) i.dateInput =
        (true, []) := by
      rw [hv, if_neg hlt]
    rw [handleAddTodo_of_valid app i _ hv2] at hrecent ⊢
    exact ⟨rfl, Or.inl rfl, hrecent⟩

theorem C5_handleAddTodo_past_accepted_witness :
    trim " Buy milk " ≠ "" ∧ isoDay "2024-01-01" = some 19723 ∧
    (19723 : Int) < localDay (-300) 1704214800000 ∧
    (handleAddTodo
      { todos := [{ id := 7, task := "old", dueDate := "2024-03-01", completed := true,
                    createdAt := "2024-01-01T00:00:00.000Z" }],
        currentFilter := "pending", localStorage := none }
      { taskInput := " Buy milk ", dateInput := "2024-01-01", tz := -300,
        now := 1704214800000, answer := true, dateNow := 1704214800000,
        isoNow := "2024-01-02T17:00:00.000Z" }).1 =
      { todos :=
          [{ id := 1704214800000, task := trim " Buy milk ", dueDate := "2024-01-01",
             completed := false, createdAt := "2024-01-02T17:00:00.000Z" },
           { id := 7, task := "old", dueDate := "2024-03-01", completed := true,
             createdAt := "2024-01-01T00:00:00.000Z" }],
        currentFilter := "pending",
        localStorage := some (stringify
          [{ id := 1704214800000, task := trim " Buy milk ", dueDate := "2024-01-01",
             completed := false, createdAt := "2024-01-02T17:00:00.000Z" },
           { id := 7, task := "old", dueDate := "2024-03-01", completed := true,
             createdAt := "2024-01-01T00:00:00.000Z" }]) } ∧
    (handleAddTodo
      { todos := [{ id := 7, task := "old", dueDate := "2024-03-01", completed := true,
                    createdAt := "2024-01-01T00:00:00.000Z" }],
        currentFilter := "pending", localStorage := none }
      { taskInput := " Buy milk ", dateInput := "2024-01-01", tz := -300,
        now := 1704214800000, answer := true, dateNow := 1704214800000,
        isoNow := "2024-01-02T17:00:00.000Z" }).2 = [Dialog.confirm msgPastDate] :=
  ⟨by decide, by decide, by decide,
    (C5_handleAddTodo_past_accepted _ _ 19723 (by decide) (by decide) (by decide) rfl).1,
    (C5_handleAddTodo_past_accepted _ _ 19723 (by decide) (by decide) (by decide) rfl).2.2
      (by decide) (by decide) (by decide)⟩

end Add

/-! ## Toggling a task -/

section Toggle

open TodoApp

theorem find?_id_eq_none (id : Int) (l : List Todo) :
    l.find? (fun t => t.id == id) = none ↔ ∀ t ∈ l, t.id ≠ id := by
  simp [List.find?_eq_none]

theorem flipFirst_of_absent (id : Int) (l : List Todo) (h : ∀ t ∈ l, t.id ≠ id) :
    flipFirst id l = l := by
  induction l with
  | nil => rfl
  | cons t ts ih =>
    have ht : t.id ≠ id := h t (List.mem_cons_self t ts)
    have hts : ∀ u ∈ ts, u.id ≠ id := fun u hu => h u (List.mem_cons_of_mem t hu)
    simp [flipFirst, ht, ih hts]

theorem flipFirst_flipFirst (id : Int) (l : List Todo) :
    flipFirst id (flipFirst id l) = l := by
  induction l with
  | nil => rfl
  | cons t ts ih =>
    by_cases ht : t.id = id
    · subst ht
      cases t
      simp [flipFirst]
    · simp [flipFirst, ht, ih]

/-- The properties other than `completed` are kept, task by task. -/
theorem flipFirst_keeps_fields (id : Int) (l : List Todo) :
    (flipFirst id l).map (fun t => (t.id, t.task, t.dueDate, t.createdAt)) =
      l.map (fun t => (t.id, t.task, t.dueDate, t.createdAt)) := by
  induction l with
  | nil => rfl
  | cons t ts ih =>
    by_cases ht : t.id = id
    · simp [flipFirst, ht]
    · simp [flipFirst, ht, ih]

theorem find?_flipFirst_isSome (id : Int) (l : List Todo) :
    ((flipFirst id l).find? (fun t => t.id == id)).isSome =
      (l.find? (fun t => t.id == id)).isSome := by
  induction l with
  | nil => rfl
  | cons t ts ih =>
    by_cases ht : t.id = id
    · simp [flipFirst, ht, List.find?_cons]
    · simp [flipFirst, ht, List.find?_cons, ih]

/-- When some task has the id, the list splits at the first such task, and
`flipFirst` negates the flag of that task only. -/
theorem flipFirst_of_present (id : Int) (l : List Todo) (h : ∃ t ∈ l, t.id = id) :
    ∃ l1 t l2, l = l1 ++ t :: l2 ∧ t.id = id ∧ (∀ u ∈ l1, u.id ≠ id) ∧
      flipFirst id l = l1 ++ { t with completed := !t.completed } :: l2 := by
  induction l with
  | nil => simp at h
  | cons a as ih =>
    by_cases ha : a.id = id
    · exact ⟨[], a, as, rfl, ha, by simp, by simp [flipFirst, ha]⟩
    · have h2 : ∃ t ∈ as, t.id = id := by
        obtain ⟨t, ht, hid⟩ := h
        rcases List.mem_cons.mp ht with rfl | hmem
        · exact absurd hid ha
        · exact ⟨t, hmem, hid⟩
      obtain ⟨l1, t, l2, hl, hid, hbefore, hflip⟩ := ih h2
      refine ⟨a :: l1, t, l2, by simp [hl], hid, ?_, by simp [flipFirst, ha, hflip]⟩
      intro u hu
      rcases List.mem_cons.mp hu with rfl | hmem
      · exact ha
      · exact hbefore u hmem

theorem toggleTodo_of_absent (app : TodoApp) (id : Int) (h : ∀ t ∈ app.todos, t.id ≠ id) :
    toggleTodo app id = app := by
  simp [toggleTodo, (find?_id_eq_none id app.todos).mpr h]

theorem toggleTodo_of_present (app : TodoApp) (id : Int) (h : ∃ t ∈ app.todos, t.id = id) :
    toggleTodo app id = saveTodos { app with todos := flipFirst id app.todos } := by
  cases hf : app.todos.find? (fun t => t.id == id) with
  | none =>
    obtain ⟨t, ht, hid⟩ := h
    exact absurd hid ((find?_id_eq_none id app.todos).mp hf t ht)
  | some x => simp [toggleTodo, hf]

/-- C6: `toggleTodo(id)` applied twice gives back the task list it started from,
for every list (tasks sharing an id included) and every id; so the `completed`
value of every task is what it was, and the filter is untouched. -/
theorem C6_toggleTodo_twice (app : TodoApp) (id : Int) :
    (toggleTodo (toggleTodo app id) id).todos = app.todos ∧
    (toggleTodo (toggleTodo app id) id).todos.map (fun t => t.completed) =
      app.todos.map (fun t => t.completed) ∧
    (toggleTodo (toggleTodo app id) id).currentFilter = app.currentFilter := by
  have key : (toggleTodo (toggleTodo app id) id).todos = app.todos ∧
      (toggleTodo (toggleTodo app id) id).currentFilter = app.currentFilter := by
    by_cases h : ∃ t ∈ app.todos, t.id = id
    · have h1 := toggleTodo_of_present app id h
      have hsome : (app.todos.find? (fun t => t.id == id)).isSome = true := by
        cases hf : app.todos.find? (fun t => t.id == id) with
        | none =>
          obtain ⟨t, ht, hid⟩ := h
          exact absurd hid ((find?_id_eq_none id app.todos).mp hf t ht)
        | some x => rfl
      have hsome2 : ((flipFirst id app.todos).find? (fun t => t.id == id)).isSome = true := by
        rw [find?_flipFirst_isSome]; exact hsome
      rw [h1]
      cases hf : (flipFirst id app.todos).find? (fun t => t.id == id) with
      | none => rw [hf] at hsome2; simp at hsome2
      | some x => simp [toggleTodo, saveTodos, hf, flipFirst_flipFirst]
    · have h0 : ∀ t ∈ app.todos, t.id ≠ id := by
        intro t ht hid
        exact h ⟨t, ht, hid⟩
      rw [toggleTodo_of_absent app id h0, toggleTodo_of_absent app id h0]
      exact ⟨rfl, rfl⟩
  exact ⟨key.1, by rw [key.1], key.2⟩

/-- C7: `toggleTodo(id)` keeps the length of the list and, position by position,
the id, text, due date and creation stamp of every task.  If no task has the id,
the whole state (list, filter, stored item) is unchanged.  Otherwise the list
splits as `l1 ++ t :: l2` at the first task `t` with the id (the one `find`
returns), the new list is `l1 ++ t' :: l2` with `t'` equal to `t` but for the
negated `completed`, so every other task is as it was, and the stored item is
the serialisation of the new list. -/
theorem C7_toggleTodo_frame (app : TodoApp) (id : Int) :
    (toggleTodo app id).todos.length = app.todos.length ∧
    (toggleTodo app id).todos.map (fun t => (t.id, t.task, t.dueDate, t.createdAt)) =
      app.todos.map (fun t => (t.id, t.task, t.dueDate, t.createdAt)) ∧
    ((∀ t ∈ app.todos, t.id ≠ id) → toggleTodo app id = app) ∧
    ((∃ t ∈ app.todos, t.id = id) →
      ∃ l1 t l2, app.todos = l1 ++ t :: l2 ∧ t.id = id ∧ (∀ u ∈ l1, u.id ≠ id) ∧
        (toggleTodo app id).todos = l1 ++ { t with completed := !t.completed } :: l2 ∧
        (toggleTodo app id).currentFilter = app.currentFilter ∧
        (toggleTodo app id).localStorage =
          some (stringify (l1 ++ { t with completed := !t.completed } :: l2))) := by
  have hmap : (toggleTodo app id).todos.map (fun t => (t.id, t.task, t.dueDate, t.createdAt)) =
      app.todos.map (fun t => (t.id, t.task, t.dueDate, t.createdAt)) := by
    by_cases h : ∃ t ∈ app.todos, t.id = id
    · rw [toggleTodo_of_present app id h]
      exact flipFirst_keeps_fields id app.todos
    · have h0 : ∀ t ∈ app.todos, t.id ≠ id := fun t ht hid => h ⟨t, ht, hid⟩
      rw [toggleTodo_of_absent app id h0]
  refine ⟨?_, hmap, toggleTodo_of_absent app id, ?_⟩
  · have := congrArg List.length hmap
    simpa using this
  · intro h
    obtain ⟨l1, t, l2, hl, hid, hbefore, hflip⟩ := flipFirst_of_present id app.todos h
    refine ⟨l1, t, l2, hl, hid, hbefore, ?_, ?_, ?_⟩
    · rw [toggleTodo_of_present app id h]; exact hflip
    · rw [toggleTodo_of_present app id h]; rfl
    · rw [toggleTodo_of_present app id h, ← hflip]; rfl

theorem C7_toggleTodo_frame_witness :
    (∃ t ∈ ({ todos := [⟨5, "a", "2024-01-01", false, "x"⟩, ⟨7, "b", "2024-01-02", false, "y"⟩,
                        ⟨7, "c", "2024-01-03", true, "z"⟩],
              currentFilter := "all", localStorage := none } : TodoApp).todos, t.id = 7) ∧
    (∃ l1 t l2,
      ({ todos := [⟨5, "a", "2024-01-01", false, "x"⟩, ⟨7, "b", "2024-01-02", false, "y"⟩,
                   ⟨7, "c", "2024-01-03", true, "z"⟩],
         currentFilter := "all", localStorage := none } : TodoApp).todos = l1 ++ t :: l2 ∧
      t.id = 7 ∧ (∀ u ∈ l1, u.id ≠ 7) ∧
      (toggleTodo
        { todos := [⟨5, "a", "2024-01-01", false, "x"⟩, ⟨7, "b", "2024-01-02", false, "y"⟩,
                    ⟨7, "c", "2024-01-03", true, "z"⟩],
          currentFilter := "all", localStorage := none } 7).todos =
        l1 ++ { t with completed := !t.completed } :: l2 ∧
      (toggleTodo
        { todos := [⟨5, "a", "2024-01-01", false, "x"⟩, ⟨7, "b", "2024-01-02", false, "y"⟩,
                    ⟨7, "c", "2024-01-03", true, "z"⟩],
          currentFilter := "all", localStorage := none } 7).currentFilter = "all" ∧
      (toggleTodo
        { todos := [⟨5, "a", "2024-01-01", false, "x"⟩, ⟨7, "b", "2024-01-02", false, "y"⟩,
                    ⟨7, "c", "2024-01-03", true, "z"⟩],
          currentFilter := "all", localStorage := none } 7).localStorage =
        some (stringify (l1 ++ { t with completed := !t.completed } :: l2))) ∧
    (toggleTodo
      { todos := [⟨5, "a", "2024-01-01", false, "x"⟩, ⟨7, "b", "2024-01-02", false, "y"⟩,
                  ⟨7, "c", "2024-01-03", true, "z"⟩],
        currentFilter := "all", localStorage := none } 7).todos =
      [⟨5, "a", "2024-01-01", false, "x"⟩, ⟨7, "b", "2024-01-02", true, "y"⟩,
       ⟨7, "c", "2024-01-03", true, "z"⟩] :=
  ⟨by decide,
    (C7_toggleTodo_frame
      { todos := [⟨5, "a", "2024-01-01", false, "x"⟩, ⟨7, "b", "2024-01-02", false, "y"⟩,
                  ⟨7, "c", "2024-01-03", true, "z"⟩],
        currentFilter := "all", localStorage := none } 7).2.2.2 (by decide),
    by decide⟩

end Toggle

/-! ## Deleting -/

section Delete

open TodoApp

/-- C8: `deleteTodo(id)` with the confirmation declined leaves the whole state
(list, filter, stored item) unchanged.  With the confirmation accepted the new
list is the old one restricted to the tasks whose id differs from `id`: no task
of the new list has the id, every task of the old list with another id is in the
new list, the new list is a sublist of the old one (tasks unchanged, relative
order kept), it is the old list itself when no task has the id, and the stored
item is the serialisation of the new list.  Either way the confirmation is the
only box shown. -/
theorem C8_deleteTodo (app : TodoApp) (id : Int) :
    deleteTodo app id false = (app, [Dialog.confirm msgDeleteOne]) ∧
    (deleteTodo app id true).2 = [Dialog.confirm msgDeleteOne] ∧
    (deleteTodo app id true).1.todos = app.todos.filter (fun t => t.id != id) ∧
    (∀ t ∈ (deleteTodo app id true).1.todos, t.id ≠ id) ∧
    (∀ t ∈ app.todos, t.id ≠ id → t ∈ (deleteTodo app id true).1.todos) ∧
    (deleteTodo app id true).1.todos.Sublist app.todos ∧
    ((∀ t ∈ app.todos, t.id ≠ id) → (deleteTodo app id true).1.todos = app.todos) ∧
    (deleteTodo app id true).1.currentFilter = app.currentFilter ∧
    (deleteTodo app id true).1.localStorage =
      some (stringify (deleteTodo app id true).1.todos) := by
  have htodos : (deleteTodo app id true).1.todos = app.todos.filter (fun t => t.id != id) := by
    simp [deleteTodo, saveTodos]
  refine ⟨by simp [deleteTodo], by simp [deleteTodo], htodos, ?_, ?_, ?_, ?_,
    by simp [deleteTodo, saveTodos], by simp [deleteTodo, saveTodos]⟩
  · intro t ht
    rw [htodos] at ht
    simpa using (List.mem_filter.mp ht).2
  · intro t ht hne
    rw [htodos]
    exact List.mem_filter.mpr ⟨ht, by simpa using hne⟩
  · rw [htodos]
    exact List.filter_sublist app.todos
  · intro h
    rw [htodos]
    exact List.filter_eq_self.mpr (fun t ht => by simpa using h t ht)

theorem C8_deleteTodo_witness :
    (∀ t ∈ ({ todos := [⟨5, "a", "2024-01-01", false, "x"⟩, ⟨7, "b", "2024-01-02", false, "y"⟩],
              currentFilter := "all", localStorage := none } : TodoApp).todos, t.id ≠ 9) ∧
    (deleteTodo
      { todos := [⟨5, "a", "2024-01-01", false, "x"⟩, ⟨7, "b", "2024-01-02", false, "y"⟩],
        currentFilter := "all", localStorage := none } 9 true).1.todos =
      [⟨5, "a", "2024-01-01", false, "x"⟩, ⟨7, "b", "2024-01-02", false, "y"⟩] :=
  ⟨by decide,
    (C8_deleteTodo
      { todos := [⟨5, "a", "2024-01-01", false, "x"⟩, ⟨7, "b", "2024-01-02", false, "y"⟩],
        currentFilter := "all", localStorage := none } 9).2.2.2.2.2.2.1 (by decide)⟩

/-- C9: on an empty list `deleteAllTodos` shows the nothing-to-delete box, whatever
the answer would be (no confirmation is asked), and the state is unchanged.  On
a list of `N > 0` tasks it asks the confirmation; accepted, the list becomes
empty (length 0), the filter is kept and the stored item is the serialisation of
the empty list; declined, the state is unchanged. -/
theorem C9_deleteAllTodos (app : TodoApp) :
    (app.todos = [] → ∀ answer : Bool,
      deleteAllTodos app answer = (app, [Dialog.alert msgNothingToDelete])) ∧
    (app.todos ≠ [] →
      deleteAllTodos app true =
        ({ todos := [], currentFilter := app.currentFilter,
           localStorage := some (stringify []) },
          [Dialog.confirm (msgDeleteAll app.todos.length)]) ∧
      (deleteAllTodos app true).1.todos.length = 0 ∧
      deleteAllTodos app false =
        (app, [Dialog.confirm (msgDeleteAll app.todos.length)])) := by
  constructor
  · intro h answer
    simp [deleteAllTodos, h]
  · intro h
    have hlen : app.todos.length ≠ 0 := fun h0 => h (List.length_eq_zero.mp h0)
    refine ⟨?_, ?_, ?_⟩
    · simp [deleteAllTodos, hlen, saveTodos]
    · simp [deleteAllTodos, hlen, saveTodos]
    · simp [deleteAllTodos, hlen]

theorem C9_deleteAllTodos_witness :
    (({ todos := [], currentFilter := "all", localStorage := some "[]" } : TodoApp).todos = [] ∧
      deleteAllTodos { todos := [], currentFilter := "all", localStorage := some "[]" } true =
        ({ todos := [], currentFilter := "all", localStorage := some "[]" },
          [Dialog.alert msgNothingToDelete])) ∧
    (({ todos := [⟨5, "a", "2024-01-01", false, "x"⟩, ⟨7, "b", "2024-01-02", true, "y"⟩],
        currentFilter := "pending", localStorage := none } : TodoApp).todos ≠ [] ∧
      deleteAllTodos
        { todos := [⟨5, "a", "2024-01-01", false, "x"⟩, ⟨7, "b", "2024-01-02", true, "y"⟩],
          currentFilter := "pending", localStorage := none } true =
        ({ todos := [], currentFilter := "pending", localStorage := some (stringify []) },
          [Dialog.confirm (msgDeleteAll 2)])) :=
  ⟨⟨rfl, (C9_deleteAllTodos
      { todos := [], currentFilter := "all", localStorage := some "[]" }).1 rfl true⟩,
    ⟨by decide, ((C9_deleteAllTodos
      { todos := [⟨5, "a", "2024-01-01", false, "x"⟩, ⟨7, "b", "2024-01-02", true, "y"⟩],
        currentFilter := "pending", localStorage := none }).2 (by decide)).1⟩⟩

end Delete

/-! ## Filtering -/

section Filter

open TodoApp

/-- C10: under the filter `'pending'` `getFilteredTodos` is the list restricted to
the tasks with `completed == false`, under `'completed'` the list restricted to
the tasks with `completed == true`, under `'all'` the list itself; under every
filter value the result is a sublist of the list (relative order kept).  The
method only reads the state, which the embedding shows by its type. -/
theorem C10_getFilteredTodos (ts : List Todo) (st : Option String) :
    getFilteredTodos { todos := ts, currentFilter := "pending", localStorage := st } =
      ts.filter (fun t => t.completed == false) ∧
    getFilteredTodos { todos := ts, currentFilter := "completed", localStorage := st } =
      ts.filter (fun t => t.completed == true) ∧
    getFilteredTodos { todos := ts, currentFilter := "all", localStorage := st } = ts ∧
    (∀ f : String,
      (getFilteredTodos { todos := ts, currentFilter := f, localStorage := st }).Sublist ts) := by
  refine ⟨?_, ?_, ?_, ?_⟩
  · have h1 : ¬ ("pending" = "completed") := by decide
    simp only [getFilteredTodos, h1, if_false, if_true]
    congr 1
    funext t
    cases t.completed <;> rfl
  · simp only [getFilteredTodos, if_true]
    congr 1
    funext t
    cases t.completed <;> rfl
  · have h1 : ¬ ("all" = "completed") := by decide
    have h2 : ¬ ("all" = "pending") := by decide
    simp only [getFilteredTodos, h1, h2, if_false]
  · intro f
    unfold getFilteredTodos
    split
    · exact List.filter_sublist ts
    · split
      · exact List.filter_sublist ts
      · exact List.Sublist.refl ts

end Filter

/-! ## Derived status and the two past-date tests -/

section Status

open TodoApp

/-- The status is decided by `completed` first, then by `isOverdue`. -/
theorem statusText_cases (tz now : Int) (todo : Todo) :
    statusText tz now todo =
      if todo.completed then "Completed"
      else if isOverdue tz now todo.dueDate then "Overdue" else "Pending" := by
  unfold statusText
  cases todo.completed <;> simp

/-- For a date text naming day `d`, `isOverdue` compares the local day of UTC
midnight of `d` with the local day of the clock reading. -/
theorem isOverdue_of_isoDay (tz now : Int) (date : String) (d : Int)
    (hd : isoDay date = some d) :
    isOverdue tz now date = decide (localDay tz (d * msPerDay) < localDay tz now) := by
  have key : (localDay tz (d * msPerDay) * msPerDay - tz * 60000 <
      localDay tz now * msPerDay - tz * 60000) ↔
      localDay tz (d * msPerDay) < localDay tz now := by
    unfold msPerDay
    constructor <;> intro h <;> omega
  simp only [isOverdue, setHoursZero, newDate, hd, Option.map_some', dateLt]
  exact decide_eq_decide.mpr key

/-- Away from the defect shown under C11 and C18: in a zone at or ahead of UTC,
`isOverdue` holds exactly when the due day is before the current local day. -/
theorem isOverdue_east (tz now : Int) (date : String) (d : Int)
    (hd : isoDay date = some d) (h0 : 0 ≤ tz) (htz : tz < 1440) :
    isOverdue tz now date = decide (d < localDay tz now) := by
  rw [isOverdue_of_isoDay tz now date d hd, localDay_utc_midnight_east tz d h0 htz]

/-- The scenario table of the status holds in every zone within a day of UTC. -/
theorem statusText_scenarios (tz now : Int) (id : Int) (task created : String)
    (hlo : -1440 ≤ tz) (hhi : tz < 1440) (htoday : localDay tz now = 19724) :
    statusText tz now ⟨id, task, "2024-01-01", false, created⟩ = "Overdue" ∧
    statusText tz now ⟨id, task, "2024-01-01", true, created⟩ = "Completed" ∧
    statusText tz now ⟨id, task, "2024-01-05", false, created⟩ = "Pending" := by
  have h1 : isoDay "2024-01-01" = some 19723 := by decide
  have h5 : isoDay "2024-01-05" = some 19727 := by decide
  have e1 : localDay tz (19723 * msPerDay) < 19724 := by
    unfold localDay msPerDay; omega
  have e5 : ¬ localDay tz (19727 * msPerDay) < 19724 := by
    unfold localDay msPerDay; omega
  refine ⟨?_, ?_, ?_⟩
  · rw [statusText_cases]
    simp [isOverdue_of_isoDay tz now _ 19723 h1, htoday, e1]
  · rw [statusText_cases]
    simp
  · rw [statusText_cases]
    simp [isOverdue_of_isoDay tz now _ 19727 h5, htoday, e5]

/-- C11, at the input where the code departs from it: in a zone five hours behind
UTC, at local noon of 2024-01-02, a task that is not completed and is due on
2024-01-02 (today, not before today) gets the status `Overdue`, where the claim
gives `Pending`. -/
theorem C11_statusText_due_today_behind_utc :
    isoDay "2024-01-02" = some 19724 ∧
    localDay (-300) 1704214800000 = 19724 ∧
    statusText (-300) 1704214800000
      { id := 1704214800000, task := "Buy milk", dueDate := "2024-01-02",
        completed := false, createdAt := "2024-01-02T17:00:00.000Z" } = "Overdue" := by
  decide

/-- C18, at the input where the code departs from it: in a zone five hours behind
UTC, both at the first and at the last millisecond of the local day 2024-01-02,
`isOverdue("2024-01-02")` is true although the due date is the current local
day; and `isOverdue("2024-01-03")`, due tomorrow, is false as it should be. -/
theorem C18_isOverdue_due_today_behind_utc :
    isoDay "2024-01-02" = some 19724 ∧
    localDay (-300) (19724 * 86400000 + 18000000) = 19724 ∧
    localDay (-300) (19724 * 86400000 + 18000000 + 86399999) = 19724 ∧
    isOverdue (-300) (19724 * 86400000 + 18000000) "2024-01-02" = true ∧
    isOverdue (-300) (19724 * 86400000 + 18000000 + 86399999) "2024-01-02" = true ∧
    isOverdue (-300) (19724 * 86400000 + 18000000) "2024-01-03" = false := by
  decide

/-- Away from the defect shown under C19: for a present description and a date
text naming a day, when the local day of UTC midnight of that day and the
current local day are in the year 0100 or later, `validateInput` asks the
past-date confirmation exactly when `isOverdue` of the same text at the same
clock reading is true. -/
theorem past_tests_agree_recent (tz now : Int) (answer : Bool) (task date : String)
    (d : Int) (ht : task ≠ "") (hd : isoDay date = some d)
    (h1 : -683003 ≤ localDay tz (d * msPerDay)) (h2 : -683003 ≤ localDay tz now) :
    (validateInput tz now answer task date).2 = [Dialog.confirm msgPastDate] ↔
      isOverdue tz now date = true := by
  rw [validateInput_of_isoDay_recent tz now answer task date d ht hd h1 h2,
    isOverdue_of_isoDay tz now date d hd]
  by_cases hlt : localDay tz (d * msPerDay) < localDay tz now
  · simp [hlt]
  · simp [hlt]

/-- A present text that names no day passes both tests: no confirmation is asked
and `isOverdue` is false. -/
theorem past_tests_agree_invalid (tz now : Int) (answer : Bool) (task date : String)
    (ht : task ≠ "") (hne : date ≠ "") (hd : isoDay date = none) :
    validateInput tz now answer task date = (true, []) ∧ isOverdue tz now date = false := by
  constructor
  · simp [validateInput, ht, hne, newDate, hd, toDateString, newDateOfDateText, dateLt]
  · simp [isOverdue, newDate, hd, setHoursZero, dateLt]

/-- C19, at the input where the code departs from it: in the zone of UTC, at the
clock reading 1704214800000 (2024-01-02), for the date text 0030-01-01 the two
tests disagree.  `isOverdue` is true (the due day is long past), while
`validateInput` asks no confirmation and accepts, because it compares the days
read back from the texts `toDateString` printed and the year printed 0030 is
read as 2030.  The task is so added without a confirmation and has the status
`Overdue` at the same clock reading. -/
theorem C19_year_0030_tests_disagree :
    isoDay "0030-01-01" = some (-708570) ∧
    validateInput 0 1704214800000 false "Buy milk" "0030-01-01" = (true, []) ∧
    isOverdue 0 1704214800000 "0030-01-01" = true ∧
    (handleAddTodo { todos := [], currentFilter := "all", localStorage := none }
      { taskInput := "Buy milk", dateInput := "0030-01-01", tz := 0,
        now := 1704214800000, answer := false, dateNow := 1704214800000,
        isoNow := "2024-01-02T17:00:00.000Z" }).2 = [] ∧
    statusText 0 1704214800000
      { id := 1704214800000, task := "Buy milk", dueDate := "0030-01-01",
        completed := false, createdAt := "2024-01-02T17:00:00.000Z" } = "Overdue" := by
  decide

end Status

/-! ## Escaping markup -/

section Escape

/-- The characters the pattern of `escapeHtml` matches. -/
theorem escapeHtmlChar_cases (c : Char) :
    escapeHtmlChar c ∈ htmlEntities ∨
    (escapeHtmlChar c = [c] ∧ c ≠ '&' ∧ c ≠ '<' ∧ c ≠ '>' ∧
      c ≠ Char.ofNat 34 ∧ c ≠ Char.ofNat 39) := by
  unfold escapeHtmlChar htmlEntities
  by_cases h1 : c = '&'
  · simp [h1]
  by_cases h2 : c = '<'
  · simp [h1, h2]
  by_cases h3 : c = '>'
  · simp [h1, h2, h3]
  by_cases h4 : c = Char.ofNat 34
  · left; simp [h1, h2, h3, h4]
  by_cases h5 : c = Char.ofNat 39
  · left; simp only [h1, h2, h3, h4, h5, if_false, if_true]; simp
  · right
    simp only [h1, h2, h3, h4, h5, if_false]
    exact ⟨trivial, h1, h2, h3, h4, h5⟩

/-- No entity holds one of the four characters `<`, `>`, `"`, `'`. -/
theorem htmlEntities_clean (e : List Char) (he : e ∈ htmlEntities) (x : Char) (hx : x ∈ e) :
    x ≠ '<' ∧ x ≠ '>' ∧ x ≠ Char.ofNat 34 ∧ x ≠ Char.ofNat 39 := by
  have hall : ∀ e ∈ htmlEntities, ∀ x ∈ e,
      x ≠ '<' ∧ x ≠ '>' ∧ x ≠ Char.ofNat 34 ∧ x ≠ Char.ofNat 39 := by decide
  exact hall e he x hx

/-- In an entity the character `&` stands at the start only. -/
theorem htmlEntities_amp_first (e : List Char) (he : e ∈ htmlEntities) (i : Nat)
    (h : e[i]? = some '&') : i = 0 := by
  have hlen : ∀ e ∈ htmlEntities, e.length ≤ 6 := by decide
  have hall : ∀ e ∈ htmlEntities, ∀ k : Fin 7, e[k.val]? = some '&' → k.val = 0 := by decide
  have hi : i < e.length := by
    rcases List.getElem?_eq_some.mp h with ⟨hlt, _⟩
    exact hlt
  have hi7 : i < 7 := lt_of_lt_of_le hi (Nat.le_succ_of_le (hlen e he))
  exact hall e he ⟨i, hi7⟩ h

theorem flatMap_escape_clean (cs : List Char) (x : Char)
    (hx : x ∈ cs.flatMap escapeHtmlChar) :
    x ≠ '<' ∧ x ≠ '>' ∧ x ≠ Char.ofNat 34 ∧ x ≠ Char.ofNat 39 := by
  rcases List.mem_flatMap.mp hx with ⟨c, _, hxc⟩
  rcases escapeHtmlChar_cases c with he | ⟨heq, _, h2, h3, h4, h5⟩
  · exact htmlEntities_clean _ he x hxc
  · rw [heq] at hxc
    have hxeq : x = c := by simpa using hxc
    rw [hxeq]
    exact ⟨h2, h3, h4, h5⟩

theorem flatMap_escape_amp (cs : List Char) :
    ∀ i : Nat, (cs.flatMap escapeHtmlChar)[i]? = some '&' →
      ∃ e ∈ htmlEntities, e <+: (cs.flatMap escapeHtmlChar).drop i := by
  induction cs with
  | nil => intro i h; simp at h
  | cons c cs ih =>
    intro i h
    rw [List.flatMap_cons] at h ⊢
    by_cases hlt : i < (escapeHtmlChar c).length
    · rw [List.getElem?_append_left hlt] at h
      rcases escapeHtmlChar_cases c with he | ⟨heq, hamp, _⟩
      · have hi0 : i = 0 := htmlEntities_amp_first _ he i h
        subst hi0
        exact ⟨escapeHtmlChar c, he, by simp⟩
      · rw [heq] at h hlt
        have hi0 : i = 0 := by simpa using hlt
        subst hi0
        simp at h
        exact absurd h hamp
    · have hge : (escapeHtmlChar c).length ≤ i := Nat.le_of_not_lt hlt
      rw [List.getElem?_append_right hge] at h
      obtain ⟨e, he, hpre⟩ := ih (i - (escapeHtmlChar c).length) h
      refine ⟨e, he, ?_⟩
      rw [List.drop_append_eq_append_drop, List.drop_eq_nil_of_le hge, List.nil_append]
      exact hpre

theorem flatMap_escape_of_plain (cs : List Char)
    (h : ∀ c ∈ cs, c ≠ '&' ∧ c ≠ '<' ∧ c ≠ '>' ∧ c ≠ Char.ofNat 34 ∧ c ≠ Char.ofNat 39) :
    cs.flatMap escapeHtmlChar = cs := by
  induction cs with
  | nil => rfl
  | cons c cs ih =>
    obtain ⟨h1, h2, h3, h4, h5⟩ := h c (List.mem_cons_self c cs)
    have hc : escapeHtmlChar c = [c] := by
      unfold escapeHtmlChar
      simp only [h1, h2, h3, h4, h5, if_false]
    rw [List.flatMap_cons, hc, ih (fun x hx => h x (List.mem_cons_of_mem c hx))]
    rfl

/-- C20: the text `escapeHtml` returns holds none of `<`, `>`, `"`, `'`; wherever
it holds `&`, one of the five entities `&amp;` `&lt;` `&gt;` `&quot;` `&#039;`
starts at that place; and a text with none of the five special characters is
returned as it is. -/
theorem C20_escapeHtml (text : String) :
    (∀ x ∈ (escapeHtml text).data,
      x ≠ '<' ∧ x ≠ '>' ∧ x ≠ Char.ofNat 34 ∧ x ≠ Char.ofNat 39) ∧
    (∀ i : Nat, (escapeHtml text).data[i]? = some '&' →
      ∃ e ∈ htmlEntities, e <+: (escapeHtml text).data.drop i) ∧
    ((∀ c ∈ text.data,
        c ≠ '&' ∧ c ≠ '<' ∧ c ≠ '>' ∧ c ≠ Char.ofNat 34 ∧ c ≠ Char.ofNat 39) →
      escapeHtml text = text) := by
  refine ⟨fun x hx => flatMap_escape_clean text.data x hx,
    fun i h => flatMap_escape_amp text.data i h, ?_⟩
  intro h
  unfold escapeHtml
  rw [flatMap_escape_of_plain text.data h]

theorem C20_escapeHtml_witness :
    (∀ c ∈ ("Buy milk" : String).data,
        c ≠ '&' ∧ c ≠ '<' ∧ c ≠ '>' ∧ c ≠ Char.ofNat 34 ∧ c ≠ Char.ofNat 39) ∧
    escapeHtml "Buy milk" = "Buy milk" ∧
    (escapeHtml "<b>T&J</b>").data[10]? = some '&' ∧
    (∃ e ∈ htmlEntities, e <+: (escapeHtml "<b>T&J</b>").data.drop 10) :=
  ⟨by decide, (C20_escapeHtml "Buy milk").2.2 (by decide), by decide,
    (C20_escapeHtml "<b>T&J</b>").2.1 10 (by decide)⟩

end Escape

/-! ## Sequences of actions -/

section Runs

open TodoApp

theorem run_cons (app : TodoApp) (op : Op) (ops : List Op) :
    run app (op :: ops) = run (step app op) ops := rfl

/-- The result of `handleAddTodo` is the old state or the state with the new
task at the head, saved. -/
theorem handleAddTodo_cases (app : TodoApp) (i : AddInput) :
    (handleAddTodo app i).1 = app ∨
    ((validateInput i.tz i.now i.answer (trim i.taskInput) i.dateInput).1 = true ∧
      trim i.taskInput ≠ "" ∧
      (handleAddTodo app i).1 =
        saveTodos { app with todos :=
          { id := i.dateNow, task := trim i.taskInput, dueDate := i.dateInput,
            completed := false, createdAt := i.isoNow } :: app.todos }) := by
  cases hv : (validateInput i.tz i.now i.answer (trim i.taskInput) i.dateInput).1
  · left
    simp [handleAddTodo, hv]
  · right
    refine ⟨rfl, ?_, by simp [handleAddTodo, hv]⟩
    intro hempty
    simp [validateInput, hempty] at hv

/-- The result of `toggleTodo` is the old state or the state with the first
matching task flipped, saved. -/
theorem toggleTodo_cases (app : TodoApp) (id : Int) :
    toggleTodo app id = app ∨
    toggleTodo app id = saveTodos { app with todos := flipFirst id app.todos } := by
  by_cases h : ∃ t ∈ app.todos, t.id = id
  · exact Or.inr (toggleTodo_of_present app id h)
  · exact Or.inl (toggleTodo_of_absent app id (fun t ht hid => h ⟨t, ht, hid⟩))

/-- One action keeps the id, text, due date and creation stamp of the tasks it
keeps, in their order; only an addition brings a new task, at the head. -/
theorem step_keeps_fields (app : TodoApp) (op : Op) :
    ((step app op).todos.map (fun t => (t.id, t.task, t.dueDate, t.createdAt))).Sublist
      (match op with
        | Op.add i => (i.dateNow, trim i.taskInput, i.dateInput, i.isoNow) ::
            app.todos.map (fun t => (t.id, t.task, t.dueDate, t.createdAt))
        | _ => app.todos.map (fun t => (t.id, t.task, t.dueDate, t.createdAt))) := by
  cases op with
  | add i =>
    rcases handleAddTodo_cases app i with h | ⟨_, _, h⟩
    · simp only [step, h]
      exact List.sublist_cons_self _ _
    · simp only [step, h, saveTodos, List.map_cons]
      exact List.Sublist.refl _
  | toggle id =>
    rcases toggleTodo_cases app id with h | h
    · simp only [step, h]
      exact List.Sublist.refl _
    · simp only [step, h, saveTodos, flipFirst_keeps_fields]
      exact List.Sublist.refl _
  | delete id answer =>
    cases answer
    · simp only [step, deleteTodo]
      exact List.Sublist.refl _
    · simp only [step, deleteTodo, saveTodos, if_true]
      exact (List.filter_sublist app.todos).map _
  | deleteAll answer =>
    simp only [step, deleteAllTodos]
    split
    · exact List.Sublist.refl _
    · split
      · simp [saveTodos]
      · exact List.Sublist.refl _
  | filter f =>
    simp only [step, handleFilter]
    exact List.Sublist.refl _

/-- One action adds at most the reading of `Date.now()` of an addition to the
ids of the list. -/
theorem step_ids_sublist (app : TodoApp) (op : Op) :
    ((step app op).todos.map (fun t => t.id)).Sublist
      (addReadings [op] ++ app.todos.map (fun t => t.id)) := by
  have h := (step_keeps_fields app op).map (fun k => k.1)
  simp only [List.map_map] at h
  cases op <;> simpa [addReadings, Function.comp_def] using h

theorem addReadings_cons (op : Op) (ops : List Op) :
    addReadings (op :: ops) = addReadings [op] ++ addReadings ops := by
  cases op <;> simp [addReadings]

/-- When the readings of the additions still to come and the ids of the list are
pairwise distinct, the ids of the final list are pairwise distinct. -/
theorem run_ids_nodup (ops : List Op) :
    ∀ app : TodoApp, (addReadings ops ++ app.todos.map (fun t => t.id)).Nodup →
      ((run app ops).todos.map (fun t => t.id)).Nodup := by
  induction ops with
  | nil =>
    intro app h
    simpa [run, addReadings] using h
  | cons op ops ih =>
    intro app h
    rw [run_cons]
    apply ih
    rw [addReadings_cons] at h
    have hsub : (addReadings ops ++ (step app op).todos.map (fun t => t.id)).Sublist
        (addReadings ops ++ (addReadings [op] ++ app.todos.map (fun t => t.id))) :=
      List.Sublist.append (List.Sublist.refl _) (step_ids_sublist app op)
    have hperm : (addReadings ops ++ (addReadings [op] ++ app.todos.map (fun t => t.id))).Perm
        (addReadings [op] ++ addReadings ops ++ app.todos.map (fun t => t.id)) := by
      rw [← List.append_assoc]
      exact List.Perm.append_right _ List.perm_append_comm
    exact (hperm.nodup_iff.mpr h).sublist hsub

/-- C14 as stated fails: two additions that read the same `Date.now()` leave two
tasks with the same id in the list. -/
theorem C14_same_reading_same_id :
    ((run { todos := [], currentFilter := "all", localStorage := none }
      [Op.add { taskInput := "a", dateInput := "2024-01-03", tz := 420,
                now := 1704153600000, answer := true, dateNow := 1704153600000,
                isoNow := "2024-01-02T00:00:00.000Z" },
       Op.add { taskInput := "b", dateInput := "2024-01-03", tz := 420,
                now := 1704153600000, answer := true, dateNow := 1704153600000,
                isoNow := "2024-01-02T00:00:00.000Z" }]).todos.map (fun t => t.id)) =
      [1704153600000, 1704153600000] ∧
    ¬ ((run { todos := [], currentFilter := "all", localStorage := none }
      [Op.add { taskInput := "a", dateInput := "2024-01-03", tz := 420,
                now := 1704153600000, answer := true, dateNow := 1704153600000,
                isoNow := "2024-01-02T00:00:00.000Z" },
       Op.add { taskInput := "b", dateInput := "2024-01-03", tz := 420,
                now := 1704153600000, answer := true, dateNow := 1704153600000,
                isoNow := "2024-01-02T00:00:00.000Z" }]).todos.map (fun t => t.id)).Nodup := by
  decide

/-- C14, amended: starting from the empty task list, after every sequence of
additions, toggles, deletions, clearings and filter changes, with any answers
and zones, the ids of the tasks in the list are pairwise distinct, provided the
readings of `Date.now()` of the additions are pairwise distinct. -/
theorem C14_ids_distinct (f : String) (st : Option String) (ops : List Op)
    (hclock : (addReadings ops).Nodup) :
    ((run { todos := [], currentFilter := f, localStorage := st } ops).todos.map
      (fun t => t.id)).Nodup := by
  apply run_ids_nodup
  simpa using hclock

theorem C14_ids_distinct_witness :
    (addReadings
      [Op.add { taskInput := "a", dateInput := "2024-01-03", tz := 420,
                now := 1704153600000, answer := true, dateNow := 1704153600000,
                isoNow := "2024-01-02T00:00:00.000Z" },
       Op.toggle 1704153600000,
       Op.add { taskInput := "b", dateInput := "2024-01-03", tz := 420,
                now := 1704153600000, answer := true, dateNow := 1704153600001,
                isoNow := "2024-01-02T00:00:00.001Z" }]).Nodup ∧
    ((run { todos := [], currentFilter := "all", localStorage := none }
      [Op.add { taskInput := "a", dateInput := "2024-01-03", tz := 420,
                now := 1704153600000, answer := true, dateNow := 1704153600000,
                isoNow := "2024-01-02T00:00:00.000Z" },
       Op.toggle 1704153600000,
       Op.add { taskInput := "b", dateInput := "2024-01-03", tz := 420,
                now := 1704153600000, answer := true, dateNow := 1704153600001,
                isoNow := "2024-01-02T00:00:00.001Z" }]).todos.map (fun t => t.id)).Nodup :=
  ⟨by decide, C14_ids_distinct "all" none _ (by decide)⟩

end Runs

/-! ## Persistence and stored texts -/

section Stored

open TodoApp

theorem synced_saveTodos (app : TodoApp) : synced (saveTodos app) := rfl

/-- C15: every action that takes effect (an addition that passes validation, a
toggle that finds its task, a confirmed deletion, a confirmed clearing of a
non-empty list) leaves the stored item equal to the serialisation of the whole
task list as it then stands, whatever the item was before.  Hence "the stored
item is the serialisation of the task list" is kept by every action: the
additions that fail, the toggles that find nothing, the declined deletions, the
clearing of an empty list and the filter changes included. -/
theorem C15_persistence (app : TodoApp) :
    (∀ i : AddInput,
      (validateInput i.tz i.now i.answer (trim i.taskInput) i.dateInput).1 = true →
        synced (handleAddTodo app i).1) ∧
    (∀ id : Int, (∃ t ∈ app.todos, t.id = id) → synced (toggleTodo app id)) ∧
    (∀ id : Int, synced (deleteTodo app id true).1) ∧
    (app.todos ≠ [] → synced (deleteAllTodos app true).1) ∧
    (∀ op : Op, synced app → synced (step app op)) := by
  refine ⟨?_, ?_, ?_, ?_, ?_⟩
  · intro i hv
    simp only [handleAddTodo, hv]
    exact synced_saveTodos _
  · intro id h
    rw [toggleTodo_of_present app id h]
    exact synced_saveTodos _
  · intro id
    simp only [deleteTodo, if_true]
    exact synced_saveTodos _
  · intro h
    have hlen : app.todos.length ≠ 0 := fun h0 => h (List.length_eq_zero.mp h0)
    simp only [deleteAllTodos, hlen, if_false, if_true]
    exact synced_saveTodos _
  · intro op hs
    cases op with
    | add i =>
      rcases handleAddTodo_cases app i with h | ⟨_, _, h⟩
      · simp only [step, h]; exact hs
      · simp only [step, h]; exact synced_saveTodos _
    | toggle id =>
      rcases toggleTodo_cases app id with h | h
      · simp only [step, h]; exact hs
      · simp only [step, h]; exact synced_saveTodos _
    | delete id answer =>
      cases answer
      · simp only [step, deleteTodo]; exact hs
      · simp only [step, deleteTodo, if_true]; exact synced_saveTodos _
    | deleteAll answer =>
      simp only [step, deleteAllTodos]
      split
      · exact hs
      · split
        · exact synced_saveTodos _
        · exact hs
    | filter f => exact hs

theorem C15_persistence_witness :
    (validateInput 420 1704153600000 true (trim " Buy milk ") "2024-01-03").1 = true ∧
    synced (handleAddTodo { todos := [], currentFilter := "all", localStorage := none }
      { taskInput := " Buy milk ", dateInput := "2024-01-03", tz := 420,
        now := 1704153600000, answer := true, dateNow := 1704153600000,
        isoNow := "2024-01-02T00:00:00.000Z" }).1 :=
  ⟨by decide,
    (C15_persistence { todos := [], currentFilter := "all", localStorage := none }).1
      { taskInput := " Buy milk ", dateInput := "2024-01-03", tz := 420,
        now := 1704153600000, answer := true, dateNow := 1704153600000,
        isoNow := "2024-01-02T00:00:00.000Z" } (by decide)⟩

theorem dropWhile_head_not (p : Char → Bool) (l : List Char) (c : Char)
    (h : (l.dropWhile p).head? = some c) : p c = false := by
  have h2 := List.head?_dropWhile_not p l
  rw [h] at h2
  simpa using h2

/-- A non-empty result of `trimChars` starts and ends with a character that is
not white space. -/
theorem trimChars_clean (cs : List Char) (hne : trimChars cs ≠ []) :
    (∃ c, (trimChars cs).head? = some c ∧ isJsWhiteSpace c = false) ∧
    (∃ c, (trimChars cs).getLast? = some c ∧ isJsWhiteSpace c = false) := by
  unfold trimChars at hne ⊢
  have hB : (cs.dropWhile isJsWhiteSpace).reverse.dropWhile isJsWhiteSpace ≠ [] := by
    intro h0
    rw [h0] at hne
    exact hne rfl
  obtain ⟨pre, hpre⟩ := List.dropWhile_suffix (l := (cs.dropWhile isJsWhiteSpace).reverse)
    isJsWhiteSpace
  constructor
  · rw [List.head?_reverse, ← List.getLast?_append_of_ne_nil pre hB, hpre,
      List.getLast?_reverse]
    cases hh : (cs.dropWhile isJsWhiteSpace).head? with
    | none =>
      have hnil : cs.dropWhile isJsWhiteSpace = [] := List.head?_eq_none_iff.mp hh
      rw [hnil] at hB
      exact absurd rfl hB
    | some c => exact ⟨c, rfl, dropWhile_head_not _ _ c hh⟩
  · rw [List.getLast?_reverse]
    cases hh : ((cs.dropWhile isJsWhiteSpace).reverse.dropWhile isJsWhiteSpace).head? with
    | none => exact absurd (List.head?_eq_none_iff.mp hh) hB
    | some c => exact ⟨c, rfl, dropWhile_head_not _ _ c hh⟩

theorem cleanTask_of_trim (id : Int) (s date created : String) (b : Bool)
    (h : trim s ≠ "") :
    cleanTask { id := id, task := trim s, dueDate := date, completed := b,
                createdAt := created } := by
  have hne : trimChars s.data ≠ [] := by
    intro h0
    apply h
    unfold trim
    rw [h0]
  obtain ⟨⟨c, hc, hw⟩, hlast⟩ := trimChars_clean s.data hne
  refine ⟨h, ⟨c, ?_, hw⟩, ⟨c, hc, hw⟩, hlast⟩
  exact List.mem_of_mem_head? hc

theorem cleanTask_congr (t u : Todo) (h : t.task = u.task) (hu : cleanTask u) :
    cleanTask t := by
  unfold cleanTask at hu ⊢
  rw [h]
  exact hu

/-- One action keeps "every stored text is clean". -/
theorem step_cleanTask (app : TodoApp) (op : Op) (h : ∀ t ∈ app.todos, cleanTask t) :
    ∀ t ∈ (step app op).todos, cleanTask t := by
  intro t ht
  have hsub := step_keeps_fields app op
  have hmem : (t.id, t.task, t.dueDate, t.createdAt) ∈
      (step app op).todos.map (fun t => (t.id, t.task, t.dueDate, t.createdAt)) :=
    List.mem_map.mpr ⟨t, ht, rfl⟩
  have hold : ∀ k ∈ app.todos.map (fun t => (t.id, t.task, t.dueDate, t.createdAt)),
      k = (t.id, t.task, t.dueDate, t.createdAt) → cleanTask t := by
    intro k hk hkt
    obtain ⟨u, hu, huk⟩ := List.mem_map.mp hk
    rw [hkt] at huk
    have htask : t.task = u.task := by
      have := congrArg (fun k => k.2.1) huk
      exact this.symm
    exact cleanTask_congr t u htask (h u hu)
  cases op with
  | add i =>
    rcases handleAddTodo_cases app i with h0 | ⟨_, hdesc, h1⟩
    · have ht2 : t ∈ app.todos := by
        simp only [step, h0] at ht
        exact ht
      exact h t ht2
    · simp only [step, h1, saveTodos] at ht
      rcases List.mem_cons.mp ht with rfl | ht2
      · exact cleanTask_of_trim _ _ _ _ _ hdesc
      · exact h t ht2
  | toggle id => exact hold _ (hsub.subset hmem) rfl
  | delete id answer => exact hold _ (hsub.subset hmem) rfl
  | deleteAll answer => exact hold _ (hsub.subset hmem) rfl
  | filter f => exact hold _ (hsub.subset hmem) rfl

theorem run_cleanTask (ops : List Op) :
    ∀ app : TodoApp, (∀ t ∈ app.todos, cleanTask t) →
      ∀ t ∈ (run app ops).todos, cleanTask t := by
  induction ops with
  | nil => intro app h; exact h
  | cons op ops ih =>
    intro app h
    rw [run_cons]
    exact ih (step app op) (step_cleanTask app op h)

/-- C16: starting from the empty task list, after every sequence of actions every
task in the list has a text that is not empty, is not white space only, and
neither starts nor ends with white space; and one action keeps, in their order,
the id, text, due date and creation stamp of the tasks it keeps, the only task
it can bring being the one an addition puts at the head, whose text is the
trimmed field value. -/
theorem C16_texts_never_blank (f : String) (st : Option String) (ops : List Op) :
    (∀ t ∈ (run { todos := [], currentFilter := f, localStorage := st } ops).todos,
      t.task ≠ "" ∧
      (∃ c ∈ t.task.data, isJsWhiteSpace c = false) ∧
      (∃ c, t.task.data.head? = some c ∧ isJsWhiteSpace c = false) ∧
      (∃ c, t.task.data.getLast? = some c ∧ isJsWhiteSpace c = false)) ∧
    (∀ (app : TodoApp) (op : Op),
      ((step app op).todos.map (fun t => (t.id, t.task, t.dueDate, t.createdAt))).Sublist
        (match op with
          | Op.add i => (i.dateNow, trim i.taskInput, i.dateInput, i.isoNow) ::
              app.todos.map (fun t => (t.id, t.task, t.dueDate, t.createdAt))
          | _ => app.todos.map (fun t => (t.id, t.task, t.dueDate, t.createdAt)))) := by
  refine ⟨?_, step_keeps_fields⟩
  intro t ht
  exact run_cleanTask ops _ (by intro u hu; simp at hu) t ht

end Stored

theorem C16_texts_never_blank_witness :
    ({ id := 1704153600000, task := "Buy milk", dueDate := "2024-01-03",
       completed := true, createdAt := "2024-01-02T00:00:00.000Z" } : Todo) ∈
      (TodoApp.run { todos := [], currentFilter := "all", localStorage := none }
        [TodoApp.Op.add
          { taskInput := "  Buy milk \t", dateInput := "2024-01-03", tz := 420,
            now := 1704153600000, answer := true, dateNow := 1704153600000,
            isoNow := "2024-01-02T00:00:00.000Z" },
         TodoApp.Op.toggle 1704153600000]).todos ∧
    ("Buy milk" : String) ≠ "" ∧
    (∃ c, ("Buy milk" : String).data.head? = some c ∧ isJsWhiteSpace c = false) :=
  ⟨by decide,
    ((C16_texts_never_blank "all" none
        [TodoApp.Op.add
          { taskInput := "  Buy milk \t", dateInput := "2024-01-03", tz := 420,
            now := 1704153600000, answer := true, dateNow := 1704153600000,
            isoNow := "2024-01-02T00:00:00.000Z" },
         TodoApp.Op.toggle 1704153600000]).1
      { id := 1704153600000, task := "Buy milk", dueDate := "2024-01-03",
        completed := true, createdAt := "2024-01-02T00:00:00.000Z" } (by decide)).1,
    ((C16_texts_never_blank "all" none
        [TodoApp.Op.add
          { taskInput := "  Buy milk \t", dateInput := "2024-01-03", tz := 420,
            now := 1704153600000, answer := true, dateNow := 1704153600000,
            isoNow := "2024-01-02T00:00:00.000Z" },
         TodoApp.Op.toggle 1704153600000]).1
      { id := 1704153600000, task := "Buy milk", dueDate := "2024-01-03",
        completed := true, createdAt := "2024-01-02T00:00:00.000Z" } (by decide)).2.2.1⟩

/-! ## End to end -/

section EndToEnd

open TodoApp

theorem getFilteredTodos_pending (app : TodoApp) :
    getFilteredTodos (handleFilter app "pending") =
      app.todos.filter (fun todo => !todo.completed) := by
  have h1 : ¬ ("pending" = "completed") := by decide
  simp only [getFilteredTodos, handleFilter, h1, if_false, if_true]

theorem getFilteredTodos_completed (app : TodoApp) :
    getFilteredTodos (handleFilter app "completed") =
      app.todos.filter (fun todo => todo.completed) := by
  simp only [getFilteredTodos, handleFilter, if_true]

/-- C17: for every task list, a description that is present, a due date naming a
day after the current local day, a zone within a day behind UTC and a clock
reading not before 1970, the addition succeeds and puts the new task at the
head; the `pending` view is then the new
task followed by the former `pending` view, the `completed` view is the former
one, and the new task has the status `Pending` at every clock reading before its
due day.  After `toggleTodo` on the id of the new task, the head of the list is
the new task with `completed` true, the `completed` view is that task followed
by the former `completed` view, the `pending` view is the former one (the task
is no longer in it), and its status is `Completed`. -/
theorem C17_add_then_toggle (app : TodoApp) (i : AddInput) (d nowR : Int)
    (hdesc : trim i.taskInput ≠ "") (hdate : isoDay i.dateInput = some d)
    (hfuture : localDay i.tz i.now < d) (hlo : -1440 ≤ i.tz)
    (hrender : localDay i.tz nowR < d) (hclock : 0 ≤ i.now) :
    (handleAddTodo app i).1.todos =
      { id := i.dateNow, task := trim i.taskInput, dueDate := i.dateInput,
        completed := false, createdAt := i.isoNow } :: app.todos ∧
    getFilteredTodos (handleFilter (handleAddTodo app i).1 "pending") =
      { id := i.dateNow, task := trim i.taskInput, dueDate := i.dateInput,
        completed := false, createdAt := i.isoNow } ::
        getFilteredTodos (handleFilter app "pending") ∧
    getFilteredTodos (handleFilter (handleAddTodo app i).1 "completed") =
      getFilteredTodos (handleFilter app "completed") ∧
    statusText i.tz nowR
      { id := i.dateNow, task := trim i.taskInput, dueDate := i.dateInput,
        completed := false, createdAt := i.isoNow } = "Pending" ∧
    (toggleTodo (handleAddTodo app i).1 i.dateNow).todos =
      { id := i.dateNow, task := trim i.taskInput, dueDate := i.dateInput,
        completed := true, createdAt := i.isoNow } :: app.todos ∧
    getFilteredTodos (handleFilter (toggleTodo (handleAddTodo app i).1 i.dateNow) "completed") =
      { id := i.dateNow, task := trim i.taskInput, dueDate := i.dateInput,
        completed := true, createdAt := i.isoNow } ::
        getFilteredTodos (handleFilter app "completed") ∧
    getFilteredTodos (handleFilter (toggleTodo (handleAddTodo app i).1 i.dateNow) "pending") =
      getFilteredTodos (handleFilter app "pending") ∧
    statusText i.tz nowR
      { id := i.dateNow, task := trim i.taskInput, dueDate := i.dateInput,
        completed := true, createdAt := i.isoNow } = "Completed" := by
  have hge : ∀ n : Int, n < d → ¬ localDay i.tz (d * msPerDay) < n := by
    intro n hn
    unfold localDay msPerDay
    omega
  have hday : -1 ≤ localDay i.tz i.now := by
    unfold localDay msPerDay
    omega
  have hsel : d - 1 ≤ localDay i.tz (d * msPerDay) := by
    unfold localDay msPerDay
    omega
  have hv : validateInput i.tz i.now i.answer (trim i.taskInput) i.dateInput = (true, []) := by
    rw [validateInput_of_isoDay_recent i.tz i.now i.answer _ _ d hdesc hdate
      (by omega) (by omega), if_neg (hge _ hfuture)]
  have hadd := handleAddTodo_of_valid app i [] hv
  have htodos : (handleAddTodo app i).1.todos =
      { id := i.dateNow, task := trim i.taskInput, dueDate := i.dateInput,
        completed := false, createdAt := i.isoNow } :: app.todos := by
    rw [hadd]; rfl
  have hover : isOverdue i.tz nowR i.dateInput = false := by
    rw [isOverdue_of_isoDay i.tz nowR _ d hdate]
    exact decide_eq_false (hge _ hrender)
  have htog : (toggleTodo (handleAddTodo app i).1 i.dateNow).todos =
      { id := i.dateNow, task := trim i.taskInput, dueDate := i.dateInput,
        completed := true, createdAt := i.isoNow } :: app.todos := by
    simp [toggleTodo, htodos, saveTodos, flipFirst]
  refine ⟨htodos, ?_, ?_, ?_, htog, ?_, ?_, ?_⟩
  · rw [getFilteredTodos_pending, getFilteredTodos_pending, htodos]
    simp
  · rw [getFilteredTodos_completed, getFilteredTodos_completed, htodos]
    simp
  · rw [statusText_cases]
    simp [hover]
  · rw [getFilteredTodos_completed, getFilteredTodos_completed, htog]
    simp
  · rw [getFilteredTodos_pending, getFilteredTodos_pending, htog]
    simp
  · rw [statusText_cases]
    simp

theorem C17_add_then_toggle_witness :
    trim "Buy milk" ≠ "" ∧ isoDay "2024-01-03" = some 19725 ∧
    localDay (-300) 1704214800000 < 19725 ∧ (-1440 : Int) ≤ -300 ∧
    (0 : Int) ≤ 1704214800000 ∧
    getFilteredTodos (handleFilter
      (handleAddTodo { todos := [], currentFilter := "all", localStorage := none }
        { taskInput := "Buy milk", dateInput := "2024-01-03", tz := -300,
          now := 1704214800000, answer := false, dateNow := 1704214800000,
          isoNow := "2024-01-02T17:00:00.000Z" }).1 "pending") =
      [{ id := 1704214800000, task := "Buy milk", dueDate := "2024-01-03",
         completed := false, createdAt := "2024-01-02T17:00:00.000Z" }] ∧
    getFilteredTodos (handleFilter
      (toggleTodo
        (handleAddTodo { todos := [], currentFilter := "all", localStorage := none }
          { taskInput := "Buy milk", dateInput := "2024-01-03", tz := -300,
            now := 1704214800000, answer := false, dateNow := 1704214800000,
            isoNow := "2024-01-02T17:00:00.000Z" }).1 1704214800000) "pending") = [] ∧
    statusText (-300) 1704214800000
      { id := 1704214800000, task := trim "Buy milk", dueDate := "2024-01-03",
        completed := false, createdAt := "2024-01-02T17:00:00.000Z" } = "Pending" :=
  ⟨by decide, by decide, by decide, by decide, by decide, by decide, by decide,
    (C17_add_then_toggle { todos := [], currentFilter := "all", localStorage := none }
      { taskInput := "Buy milk", dateInput := "2024-01-03", tz := -300,
        now := 1704214800000, answer := false, dateNow := 1704214800000,
        isoNow := "2024-01-02T17:00:00.000Z" } 19725 1704214800000
      (by decide) (by decide) (by decide) (by decide) (by decide) (by decide)).2.2.2.1⟩

end EndToEnd

/-! ## Reading back what `JSON.stringify` wrote -/

section RoundTrip

open TodoApp

theorem char_eq_ofNat (c : Char) (n : Nat) (h : c.toNat = n) : c = Char.ofNat n := by
  rw [← h, Char.ofNat_toNat]

theorem prependChars_ok (out s rest : List Char) :
    prependChars out (Except.ok (s, rest)) = Except.ok (out ++ s, rest) := rfl

/-- Reading the escape of one character gives the character back. -/
theorem parseStringBody_quoteJSONChar (c : Char) (R : List Char) :
    parseStringBody StrState.normal none (quoteJSONChar c ++ R) =
      prependChars [c] (parseStringBody StrState.normal none R) := by
  by_cases h32 : c.toNat < 32
  · have hc := char_eq_ofNat c c.toNat rfl
    generalize c.toNat = n at h32 hc
    subst hc
    interval_cases n <;> rfl
  by_cases h34 : c.toNat = 34
  · have hc := char_eq_ofNat c 34 h34
    subst hc
    rfl
  by_cases h92 : c.toNat = 92
  · have hc := char_eq_ofNat c 92 h92
    subst hc
    rfl
  · have hq : quoteJSONChar c = [c] := by
      unfold quoteJSONChar
      have e8 : c.toNat ≠ 8 := by omega
      have e9 : c.toNat ≠ 9 := by omega
      have e10 : c.toNat ≠ 10 := by omega
      have e12 : c.toNat ≠ 12 := by omega
      have e13 : c.toNat ≠ 13 := by omega
      simp [h34, h92, e8, e9, e10, e12, e13, h32]
    rw [hq]
    show parseStringBody StrState.normal none (c :: R) = _
    simp only [parseStringBody, h34, h92, h32, if_false, flushHigh, List.nil_append]

/-- Reading the body that `JSON.stringify` writes for a text, up to the closing
quote, gives the text back. -/
theorem parseStringBody_quoted (s R : List Char) :
    parseStringBody StrState.normal none
        (s.flatMap quoteJSONChar ++ Char.ofNat 0x22 :: R) = Except.ok (s, R) := by
  induction s with
  | nil => rfl
  | cons c s ih =>
    rw [List.flatMap_cons, List.append_assoc, parseStringBody_quoteJSONChar, ih]
    rfl

theorem quoteJSONString_data (s : String) :
    (quoteJSONString s).data =
      Char.ofNat 0x22 :: (s.data.flatMap quoteJSONChar ++ [Char.ofNat 0x22]) := rfl

theorem digitChar_toNat (k : Nat) (h : k < 10) : (Nat.digitChar k).toNat = 48 + k := by
  interval_cases k <;> rfl

theorem digitsValue_append_singleton (L : List Char) (d : Char) :
    digitsValue (L ++ [d]) = 10 * digitsValue L + (d.toNat - 48) := by
  simp [digitsValue, List.foldl_append]

/-- The digits `Nat.toDigitsCore` writes in front of `ds`: decimal digits, with
the value `n`, with no leading zero unless `n = 0`, when they are the one digit
`0`. -/
theorem toDigitsCore_spec : ∀ (fuel n : Nat) (ds : List Char), n < fuel →
    ∃ L : List Char, Nat.toDigitsCore 10 fuel n ds = L ++ ds ∧
      (∀ c ∈ L, isDecDigit c = true) ∧ digitsValue L = n ∧
      (∃ d r, L = d :: r ∧ (d = '0' → n = 0) ∧ (n = 0 → r = [])) := by
  intro fuel
  induction fuel with
  | zero => intro n ds h; omega
  | succ fuel ih =>
    intro n ds h
    have hd : (Nat.digitChar (n % 10)).toNat = 48 + n % 10 :=
      digitChar_toNat (n % 10) (Nat.mod_lt n (by decide))
    have hdig : isDecDigit (Nat.digitChar (n % 10)) = true := by
      have : n % 10 < 10 := Nat.mod_lt n (by decide)
      simp [isDecDigit, hd]
      omega
    by_cases h0 : n / 10 = 0
    · refine ⟨[Nat.digitChar (n % 10)], ?_, ?_, ?_, ⟨_, [], rfl, ?_, fun _ => rfl⟩⟩
      · simp [Nat.toDigitsCore, h0]
      · intro c hc
        rw [List.mem_singleton.mp hc]
        exact hdig
      · have hlt : n < 10 := by omega
        simp [digitsValue, hd]
        omega
      · intro hz
        have h48 : (Nat.digitChar (n % 10)).toNat = 48 := by rw [hz]; rfl
        omega
    · have hlt : n / 10 < fuel := by omega
      obtain ⟨L, hL, hall, hval, d, r, hLd, hzero, _⟩ :=
        ih (n / 10) (Nat.digitChar (n % 10) :: ds) hlt
      refine ⟨L ++ [Nat.digitChar (n % 10)], ?_, ?_, ?_,
        ⟨d, r ++ [Nat.digitChar (n % 10)], ?_, ?_, ?_⟩⟩
      · simp [Nat.toDigitsCore, h0, hL]
      · intro c hc
        rcases List.mem_append.mp hc with h1 | h1
        · exact hall c h1
        · rw [List.mem_singleton.mp h1]
          exact hdig
      · rw [digitsValue_append_singleton, hval, hd]
        omega
      · rw [hLd]; rfl
      · intro hd0
        exact absurd (hzero hd0) h0
      · intro hn
        rw [hn] at h0
        exact absurd rfl h0

/-- The decimal digits of a natural number as `toString` writes them. -/
theorem toDigits_spec (n : Nat) :
    (∀ c ∈ Nat.toDigits 10 n, isDecDigit c = true) ∧ digitsValue (Nat.toDigits 10 n) = n ∧
    (∃ d r, Nat.toDigits 10 n = d :: r ∧ (d = '0' → r = [])) := by
  obtain ⟨L, hL, hall, hval, d, r, hLd, hz, hr⟩ := toDigitsCore_spec (n + 1) n [] (Nat.lt_succ_self n)
  have hL2 : Nat.toDigits 10 n = L := by
    unfold Nat.toDigits
    rw [hL, List.append_nil]
  rw [hL2]
  exact ⟨hall, hval, d, r, hLd, fun h => hr (hz h)⟩

theorem isDecDigit_comma : isDecDigit ',' = false := by decide

/-- A run of digits written by `toString`, then a comma: `parseUnsigned` reads
the integer and stops at the comma. -/
theorem parseUnsigned_toDigits (sign : Int) (n : Nat) (R : List Char) :
    parseUnsigned sign (Nat.toDigits 10 n ++ ',' :: R) =
      Except.ok (JSON.num (sign * n) 0, ',' :: R) := by
  obtain ⟨hall, hval, d, r, hLd, hz⟩ := toDigits_spec n
  rw [hLd] at hall hval
  have hd : isDecDigit d = true := hall d (List.mem_cons_self d r)
  have hr : ∀ c ∈ r, isDecDigit c = true := fun c hc => hall c (List.mem_cons_of_mem d hc)
  have htake : (r ++ ',' :: R).takeWhile isDecDigit = r := by
    rw [List.takeWhile_append_of_pos hr]
    simp [List.takeWhile, isDecDigit_comma]
  have hdrop : (r ++ ',' :: R).dropWhile isDecDigit = ',' :: R := by
    rw [List.dropWhile_append_of_pos hr]
    simp [List.dropWhile, isDecDigit_comma]
  have hfrac : parseFraction (',' :: R) = Except.ok ([], ',' :: R) := rfl
  have hexp : parseExponent (',' :: R) = Except.ok (0, ',' :: R) := rfl
  rw [hLd]
  show parseUnsigned sign (d :: (r ++ ',' :: R)) = _
  by_cases h0 : d = '0'
  · subst h0
    have hrnil : r = [] := hz rfl
    subst hrnil
    simp only [parseUnsigned, hd, if_true, List.nil_append, hfrac, hexp]
    simp [← hval]
  · simp only [parseUnsigned, hd, if_true, h0, if_false, htake, hdrop, hfrac, hexp]
    simp [hval]

theorem toString_ofNat_data (m : Nat) :
    (toString (Int.ofNat m)).data = Nat.toDigits 10 m := rfl

theorem toString_negSucc_data (m : Nat) :
    (toString (Int.negSucc m)).data = '-' :: Nat.toDigits 10 (m + 1) := rfl

/-- What `parseValue` does with a text that starts a number. -/
theorem parseValue_number (f : Nat) (c : Char) (r : List Char)
    (h : isDecDigit c = true ∨ c = '-') :
    parseValue (f + 1) (c :: r) = parseNumber (c :: r) := by
  have hn : (48 ≤ c.toNat ∧ c.toNat ≤ 57) ∨ c.toNat = 45 := by
    rcases h with h | h
    · left
      simpa [isDecDigit] using h
    · right
      rw [h]; rfl
  have hws : isJsonWs c = false := by
    simp [isJsonWs]
    omega
  have e1 : c.toNat ≠ 0x7B := by omega
  have e2 : c.toNat ≠ 0x22 := by omega
  have e3 : c ≠ '[' := by
    intro hc; rw [hc] at hn; revert hn; decide
  have e4 : c ≠ 't' := by
    intro hc; rw [hc] at hn; revert hn; decide
  have e5 : c ≠ 'f' := by
    intro hc; rw [hc] at hn; revert hn; decide
  have e6 : c ≠ 'n' := by
    intro hc; rw [hc] at hn; revert hn; decide
  have hskip : skipWs (c :: r) = c :: r := by
    simp [skipWs, List.dropWhile, hws]
  simp only [parseValue, hskip, e1, e2, e3, e4, e5, e6, if_false]

/-- An integer written by `toString`, then a comma: `parseValue` reads the
integer and stops at the comma. -/
theorem parseValue_int (f : Nat) (n : Int) (R : List Char) :
    parseValue (f + 1) ((toString n).data ++ ',' :: R) =
      Except.ok (JSON.num n 0, ',' :: R) := by
  cases n with
  | ofNat m =>
    obtain ⟨hall, _, d, r, hLd, _⟩ := toDigits_spec m
    have hd : isDecDigit d = true := by
      apply hall; rw [hLd]; exact List.mem_cons_self d r
    have hne : d ≠ '-' := by
      intro hc; rw [hc] at hd; revert hd; decide
    rw [toString_ofNat_data]
    have hstep : parseValue (f + 1) (Nat.toDigits 10 m ++ ',' :: R) =
        parseUnsigned 1 (Nat.toDigits 10 m ++ ',' :: R) := by
      rw [hLd]
      show parseValue (f + 1) (d :: (r ++ ',' :: R)) = _
      rw [parseValue_number f d _ (Or.inl hd)]
      simp only [parseNumber, hne, if_false]
      rfl
    rw [hstep, parseUnsigned_toDigits]
    simp
  | negSucc m =>
    rw [toString_negSucc_data]
    show parseValue (f + 1) ('-' :: (Nat.toDigits 10 (m + 1) ++ ',' :: R)) = _
    rw [parseValue_number f '-' _ (Or.inr rfl)]
    simp only [parseNumber, if_true]
    rw [parseUnsigned_toDigits]
    simp [Int.negSucc_eq]

theorem skipWs_cons_of_not_ws (c : Char) (r : List Char) (h : isJsonWs c = false) :
    skipWs (c :: r) = c :: r := by
  simp [skipWs, List.dropWhile, h]

/-- A text written by `JSON.stringify`: `parseValue` reads the text back and stops
after the closing quote. -/
theorem parseValue_string (f : Nat) (s : String) (R : List Char) :
    parseValue (f + 1) ((quoteJSONString s).data ++ R) = Except.ok (JSON.str s, R) := by
  rw [quoteJSONString_data]
  show parseValue (f + 1)
    (Char.ofNat 0x22 :: ((s.data.flatMap quoteJSONChar ++ [Char.ofNat 0x22]) ++ R)) = _
  rw [List.append_assoc, List.singleton_append]
  have hskip := skipWs_cons_of_not_ws (Char.ofNat 0x22)
    (s.data.flatMap quoteJSONChar ++ Char.ofNat 0x22 :: R) (by decide)
  have e1 : (Char.ofNat 0x22).toNat ≠ 0x7B := by decide
  have e2 : Char.ofNat 0x22 ≠ '[' := by decide
  have e3 : (Char.ofNat 0x22).toNat = 0x22 := by decide
  have e0 : ¬ ((34 : Nat) = 123) := by decide
  rw [parseValue, hskip]
  simp only [e0, e1, e2, e3, if_false, if_true, parseStringBody_quoted]

/-- The word `JSON.stringify` writes for a boolean is read back. -/
theorem parseValue_bool (f : Nat) (b : Bool) (R : List Char) :
    parseValue (f + 1) ((if b then "true" else "false" : String).data ++ R) =
      Except.ok (JSON.bool b, R) := by
  cases b
  · show parseValue (f + 1) ('f' :: 'a' :: 'l' :: 's' :: 'e' :: R) = _
    rw [parseValue, skipWs_cons_of_not_ws 'f' _ (by decide)]
    rfl
  · show parseValue (f + 1) ('t' :: 'r' :: 'u' :: 'e' :: R) = _
    rw [parseValue, skipWs_cons_of_not_ws 't' _ (by decide)]
    rfl

/-- One member followed by a comma and further members. -/
theorem parseMembers_more (f : Nat) (k : String) (V R R2 : List Char) (v : JSON)
    (ms : List (String × JSON))
    (hv : parseValue f (V ++ ',' :: R) = Except.ok (v, ',' :: R))
    (hm : parseMembers f R = Except.ok (ms, R2)) :
    parseMembers (f + 1) ((quoteJSONString k).data ++ ':' :: (V ++ ',' :: R)) =
      Except.ok ((k, v) :: ms, R2) := by
  rw [quoteJSONString_data]
  show parseMembers (f + 1)
    (Char.ofNat 0x22 :: ((k.data.flatMap quoteJSONChar ++ [Char.ofNat 0x22]) ++
      ':' :: (V ++ ',' :: R))) = _
  rw [List.append_assoc, List.singleton_append]
  have hskip := skipWs_cons_of_not_ws (Char.ofNat 0x22)
    (k.data.flatMap quoteJSONChar ++ Char.ofNat 0x22 :: ':' :: (V ++ ',' :: R)) (by decide)
  have hskip2 := skipWs_cons_of_not_ws ':' (V ++ ',' :: R) (by decide)
  have hskip3 := skipWs_cons_of_not_ws ',' R (by decide)
  have e3 : (Char.ofNat 0x22).toNat = 0x22 := by decide
  simp only [parseMembers, hskip, e3, if_true, parseStringBody_quoted, hskip2, hv, hskip3, hm]

/-- The last member, followed by the closing brace. -/
theorem parseMembers_last (f : Nat) (k : String) (V R : List Char) (v : JSON)
    (hv : parseValue f (V ++ Char.ofNat 0x7D :: R) = Except.ok (v, Char.ofNat 0x7D :: R)) :
    parseMembers (f + 1) ((quoteJSONString k).data ++ ':' :: (V ++ Char.ofNat 0x7D :: R)) =
      Except.ok ([(k, v)], R) := by
  rw [quoteJSONString_data]
  show parseMembers (f + 1)
    (Char.ofNat 0x22 :: ((k.data.flatMap quoteJSONChar ++ [Char.ofNat 0x22]) ++
      ':' :: (V ++ Char.ofNat 0x7D :: R))) = _
  rw [List.append_assoc, List.singleton_append]
  have hskip := skipWs_cons_of_not_ws (Char.ofNat 0x22)
    (k.data.flatMap quoteJSONChar ++ Char.ofNat 0x22 :: ':' :: (V ++ Char.ofNat 0x7D :: R))
    (by decide)
  have hskip2 := skipWs_cons_of_not_ws ':' (V ++ Char.ofNat 0x7D :: R) (by decide)
  have hskip3 := skipWs_cons_of_not_ws (Char.ofNat 0x7D) R (by decide)
  have e3 : (Char.ofNat 0x22).toNat = 0x22 := by decide
  have e4 : Char.ofNat 0x7D ≠ ',' := by decide
  have e5 : (Char.ofNat 0x7D).toNat = 0x7D := by decide
  simp only [parseMembers, hskip, e3, if_true, parseStringBody_quoted, hskip2, hv, hskip3,
    e4, e5, if_false]

/-- The characters `JSON.stringify` writes for one task, member by member. -/
theorem stringifyTodo_data (t : Todo) (R : List Char) :
    (stringifyTodo t).data ++ R =
      Char.ofNat 0x7B :: ((quoteJSONString "id").data ++ ':' :: ((toString t.id).data ++ ',' ::
        ((quoteJSONString "task").data ++ ':' :: ((quoteJSONString t.task).data ++ ',' ::
        ((quoteJSONString "dueDate").data ++ ':' :: ((quoteJSONString t.dueDate).data ++ ',' ::
        ((quoteJSONString "completed").data ++ ':' ::
          ((if t.completed then "true" else "false" : String).data ++ ',' ::
        ((quoteJSONString "createdAt").data ++ ':' ::
          ((quoteJSONString t.createdAt).data ++ Char.ofNat 0x7D :: R)))))))))) := by
  simp only [stringifyTodo, String.data_append, List.append_assoc]
  rfl

/-- The serialisation of one task is read back as the object of its five
properties, whatever follows. -/
theorem parseValue_stringifyTodo (f : Nat) (t : Todo) (R : List Char) :
    parseValue (f + 7) ((stringifyTodo t).data ++ R) = Except.ok (todoToJSON t, R) := by
  rw [stringifyTodo_data]
  have m5 := parseMembers_last (f + 1) "createdAt" (quoteJSONString t.createdAt).data R
    (JSON.str t.createdAt) (parseValue_string f t.createdAt _)
  have m4 := parseMembers_more (f + 2) "completed"
    (if t.completed then "true" else "false" : String).data _ R (JSON.bool t.completed) _
    (parseValue_bool (f + 1) t.completed _) m5
  have m3 := parseMembers_more (f + 3) "dueDate" (quoteJSONString t.dueDate).data _ R
    (JSON.str t.dueDate) _ (parseValue_string (f + 2) t.dueDate _) m4
  have m2 := parseMembers_more (f + 4) "task" (quoteJSONString t.task).data _ R
    (JSON.str t.task) _ (parseValue_string (f + 3) t.task _) m3
  have m1 := parseMembers_more (f + 5) "id" (toString t.id).data _ R
    (JSON.num t.id 0) _ (parseValue_int (f + 4) t.id _) m2
  have hq : (quoteJSONString "id").data = Char.ofNat 0x22 :: ['i', 'd', Char.ofNat 0x22] := by
    decide
  have hskip := skipWs_cons_of_not_ws (Char.ofNat 0x7B)
    ((quoteJSONString "id").data ++ ':' :: ((toString t.id).data ++ ',' ::
        ((quoteJSONString "task").data ++ ':' :: ((quoteJSONString t.task).data ++ ',' ::
        ((quoteJSONString "dueDate").data ++ ':' :: ((quoteJSONString t.dueDate).data ++ ',' ::
        ((quoteJSONString "completed").data ++ ':' ::
          ((if t.completed then "true" else "false" : String).data ++ ',' ::
        ((quoteJSONString "createdAt").data ++ ':' ::
          ((quoteJSONString t.createdAt).data ++ Char.ofNat 0x7D :: R)))))))))) (by decide)
  have e1 : (Char.ofNat 0x7B).toNat = 0x7B := by decide
  have e2 : (Char.ofNat 0x22).toNat ≠ 0x7D := by decide
  show parseValue ((f + 6) + 1) _ = _
  rw [parseValue, hskip]
  simp only [e1, if_true]
  rw [hq] at m1 ⊢
  rw [List.cons_append, skipWs_cons_of_not_ws (Char.ofNat 0x22) _ (by decide)]
  simp only [e2, if_false]
  rw [List.cons_append] at m1
  rw [m1]
  rfl

theorem intercalate_go_data (s : String) (as : List String) :
    ∀ acc : String, (String.intercalate.go acc s as).data =
      acc.data ++ as.flatMap (fun x => s.data ++ x.data) := by
  induction as with
  | nil => intro acc; simp [String.intercalate.go]
  | cons a as ih =>
    intro acc
    simp [String.intercalate.go, ih, String.data_append, List.append_assoc]

/-- The characters `JSON.stringify` writes for a non-empty task list. -/
theorem stringify_cons_data (t : Todo) (ts : List Todo) :
    (stringify (t :: ts)).data =
      '[' :: ((stringifyTodo t).data ++
        (ts.flatMap (fun x => ',' :: (stringifyTodo x).data) ++ [']'])) := by
  simp only [stringify, List.map_cons, String.intercalate, String.data_append,
    intercalate_go_data, List.flatMap_map]
  simp [List.append_assoc]

/-- The elements of the array written for a task list are read back, up to and
with the closing bracket. -/
theorem parseElements_stringify (ts : List Todo) :
    ∀ (t : Todo) (f : Nat) (R : List Char),
      parseElements (f + ts.length + 8)
          ((stringifyTodo t).data ++
            (ts.flatMap (fun x => ',' :: (stringifyTodo x).data) ++ ']' :: R)) =
        Except.ok (todoToJSON t :: ts.map todoToJSON, R) := by
  induction ts with
  | nil =>
    intro t f R
    show parseElements ((f + 7) + 1) ((stringifyTodo t).data ++ ']' :: R) = _
    rw [parseElements, parseValue_stringifyTodo]
    simp only [skipWs_cons_of_not_ws ']' R (by decide)]
    rfl
  | cons u us ih =>
    intro t f R
    show parseElements ((f + us.length + 8) + 1)
      ((stringifyTodo t).data ++
        ((',' :: (stringifyTodo u).data ++
          us.flatMap (fun x => ',' :: (stringifyTodo x).data)) ++ ']' :: R)) = _
    have hre : (',' :: (stringifyTodo u).data ++
          us.flatMap (fun x => ',' :: (stringifyTodo x).data)) ++ ']' :: R =
        ',' :: ((stringifyTodo u).data ++
          (us.flatMap (fun x => ',' :: (stringifyTodo x).data) ++ ']' :: R)) := by
      simp [List.append_assoc]
    have hfuel : f + us.length + 8 = (f + us.length + 1) + 7 := by omega
    rw [hre, parseElements]
    rw [hfuel, parseValue_stringifyTodo, ← hfuel]
    simp only [skipWs_cons_of_not_ws ',' _ (by decide), if_true, ih u f R]
    rfl

theorem stringifyTodo_length (t : Todo) : 2 ≤ (stringifyTodo t).data.length := by
  have h := congrArg List.length (stringifyTodo_data t [])
  simp only [List.append_nil, List.length_cons, List.length_append] at h
  omega

theorem flatMap_length_ge (ts : List Todo) :
    ts.length ≤ (ts.flatMap (fun x => ',' :: (stringifyTodo x).data)).length := by
  induction ts with
  | nil => simp
  | cons t ts ih =>
    simp only [List.flatMap_cons, List.length_append, List.length_cons]
    omega

/-- `JSON.parse` of what `JSON.stringify` wrote for a task list is the array of
the objects of the tasks, in order. -/
theorem JSONparse_stringify (ts : List Todo) :
    JSONparse (stringify ts) = Except.ok (JSON.arr (ts.map todoToJSON)) := by
  cases ts with
  | nil => rfl
  | cons t ts =>
    have hdata := stringify_cons_data t ts
    have hlen : ts.length + 4 ≤ (stringify (t :: ts)).length := by
      show _ ≤ (stringify (t :: ts)).data.length
      rw [hdata]
      have h1 := stringifyTodo_length t
      have h2 := flatMap_length_ge ts
      simp only [List.length_cons, List.length_append, List.length_nil]
      omega
    obtain ⟨f, hf⟩ : ∃ f, 2 * (stringify (t :: ts)).length + 2 = (f + ts.length + 8) + 1 :=
      ⟨2 * (stringify (t :: ts)).length + 2 - (ts.length + 9), by omega⟩
    obtain ⟨X, hX⟩ : ∃ X, (stringifyTodo t).data ++
        (ts.flatMap (fun x => ',' :: (stringifyTodo x).data) ++ [']']) =
        Char.ofNat 0x7B :: X := ⟨_, stringifyTodo_data t _⟩
    have e1 : ('[' : Char).toNat ≠ 0x7B := by decide
    have e2 : Char.ofNat 0x7B ≠ ']' := by decide
    unfold JSONparse
    rw [hf, hdata, parseValue, skipWs_cons_of_not_ws '[' _ (by decide)]
    simp only [e1, if_false, if_true]
    rw [hX, skipWs_cons_of_not_ws (Char.ofNat 0x7B) _ (by decide)]
    simp only [e2, if_false]
    rw [← hX, parseElements_stringify ts t f []]
    rfl

theorem stringify_ne_empty (ts : List Todo) : stringify ts ≠ "" := by
  intro h
  have hd := congrArg String.data h
  cases ts with
  | nil => revert hd; decide
  | cons t ts =>
    rw [stringify_cons_data] at hd
    simp at hd

theorem todoOfJSON_todoToJSON (t : Todo) : todoOfJSON (todoToJSON t) = some t := by
  cases t
  simp [todoOfJSON, todoToJSON, lookupMember, JSON.toInt?, JSON.toString?, JSON.toBool?]

theorem mapM_todoOfJSON (ts : List Todo) :
    (ts.map todoToJSON).mapM todoOfJSON = some ts := by
  induction ts with
  | nil => rfl
  | cons t ts ih =>
    rw [List.map_cons, List.mapM_cons, todoOfJSON_todoToJSON, ih]
    rfl

theorem todosOfJSON_map (ts : List Todo) :
    todosOfJSON (JSON.arr (ts.map todoToJSON)) = some ts :=
  mapM_todoOfJSON ts

end RoundTrip

/-! ## Loading -/

section Load

open TodoApp

/-- C12 as stated fails: a stored item cut off in the middle of a task does not
parse, and `loadTodos` then raises the `SyntaxError` of `JSON.parse` instead of
returning the empty array. -/
theorem C12_corrupt_record_raises :
    loadTodos (some "[\x7b\"id\":1704214800000,\"task\":\"Buy milk\",\"dueDa") =
      Except.error ParseError.syntaxError := by
  rfl

/-- C12, amended: `loadTodos` returns the empty array, and does not raise, when
the stored item is absent or is the empty text; for every other content it
returns what `JSON.parse` returns for that content and raises what `JSON.parse`
raises. -/
theorem C12_loadTodos (item : Option String) :
    (item = none ∨ item = some "" →
      loadTodos item = Except.ok (JSON.arr []) ∧ todosOfJSON (JSON.arr []) = some []) ∧
    (∀ saved : String, item = some saved → saved ≠ "" →
      loadTodos item = JSONparse saved) := by
  constructor
  · intro h
    rcases h with h | h <;> subst h <;> exact ⟨rfl, rfl⟩
  · intro saved h hne
    subst h
    simp [loadTodos, hne]

theorem C12_loadTodos_witness :
    ((none : Option String) = none ∨ (none : Option String) = some "") ∧
    loadTodos none = Except.ok (JSON.arr []) ∧
    ("[]" : String) ≠ "" ∧
    loadTodos (some "[]") = JSONparse "[]" :=
  ⟨Or.inl rfl, ((C12_loadTodos none).1 (Or.inl rfl)).1, by decide,
    (C12_loadTodos (some "[]")).2 "[]" rfl (by decide)⟩

/-- C13: for every task list, the empty one included, `loadTodos` after
`saveTodos` does not raise and returns the array of the objects of the saved
tasks, in their order, each with the five properties `id`, `task`, `dueDate`,
`completed`, `createdAt` as saved; read as a task list, that array is the saved
list. -/
theorem C13_save_then_load (app : TodoApp) :
    loadTodos (saveTodos app).localStorage =
      Except.ok (JSON.arr (app.todos.map todoToJSON)) ∧
    todosOfJSON (JSON.arr (app.todos.map todoToJSON)) = some app.todos := by
  refine ⟨?_, todosOfJSON_map app.todos⟩
  show loadTodos (some (stringify app.todos)) = _
  simp only [loadTodos, stringify_ne_empty app.todos, if_false]
  exact JSONparse_stringify app.todos

end Load
